import Mathlib

/-!
The program `rotate`: schedule parsing, due-check and retention pruning.

A shallow embedding of `main.go` (`parseSchedule`, `lastRotations`, `rotate`).

Conventions of the embedding.

* Go strings are lists of Unicode characters (`List Char`, wrapped into `String` where the
  program stores them: labels, file names, error messages).
* `uint16` and `uint64` values are natural numbers; every operation that can wrap is written
  with an explicit `% 2 ^ 16` or `% 2 ^ 64`.
* The Go library calls the program makes (`strings.Split`, `fmt.Sscanf`, `strconv.ParseUint`,
  `sort.Sort`, `time.Time.AddDate`, `time.Parse` / `Format`, `filepath.Join`, the `os` /
  `ioutil` / `shutil` file-system calls) are modelled by executable definitions that follow the
  documented behaviour of the library; each one says which call it stands for.
-/

namespace Rotate

/-! ## Data model (`main.go`, lines 18-32) -/

/-- The constant `daysPerWeek`. -/
def daysPerWeek : Nat := 7

/-- The struct `frequency`: a label and three `uint16` fields. -/
structure frequency where
  label : String
  years : Nat
  months : Nat
  days : Nat
deriving DecidableEq, Repr

/-- The struct `rotation`: a frequency and a `uint64` retention count. -/
structure rotation where
  frequency : frequency
  retention : Nat
deriving DecidableEq, Repr

/-! ## Library calls used by `parseSchedule` -/

/-- The call `strings.Split(s, sep)` for a separator of one character. -/
def Split (s : List Char) (sep : Char) : List (List Char) :=
  s.splitOn sep

/-- The white space table of package `fmt` (`isSpace` in `scan.go`). -/
def isSpace (r : Char) : Bool :=
  (0x0009 ≤ r.toNat && r.toNat ≤ 0x000d) || r.toNat == 0x0020 || r.toNat == 0x0085 ||
  r.toNat == 0x00a0 || r.toNat == 0x1680 || (0x2000 ≤ r.toNat && r.toNat ≤ 0x200a) ||
  (0x2028 ≤ r.toNat && r.toNat ≤ 0x2029) || r.toNat == 0x202f || r.toNat == 0x205f ||
  r.toNat == 0x3000

/-- An ASCII decimal digit. -/
def isDigit (c : Char) : Bool :=
  48 ≤ c.toNat && c.toNat ≤ 57

/-- The value of a string of decimal digits, most significant digit first. -/
def digitsValue (ds : List Char) : Nat :=
  ds.foldl (fun n c => 10 * n + (c.toNat - 48)) 0

/-- The method `SkipSpace` of the scanner behind `fmt.Sscanf`: white space is discarded, and a
newline in the input that the format does not ask for is an error (`none`). -/
def SkipSpace : List Char → Option (List Char)
  | [] => some []
  | c :: cs =>
    if c.toNat = 10 then none
    else if isSpace c then SkipSpace cs
    else some (c :: cs)

/-- The verb `%d` read into a `uint16`: leading space is skipped, then the longest run of decimal
digits is taken; the end of input, no digit at all, or a value that does not fit 16 bits is an
error. The result is the value and the rest of the input. -/
def scanUint (input : List Char) : Option (Nat × List Char) :=
  match SkipSpace input with
  | none => none
  | some [] => none
  | some (c :: cs) =>
    if (c :: cs).takeWhile isDigit = [] then none
    else if digitsValue ((c :: cs).takeWhile isDigit) < 2 ^ 16 then
      some (digitsValue ((c :: cs).takeWhile isDigit), (c :: cs).dropWhile isDigit)
    else none

/-- The verb `%s`: leading space is skipped, then the longest run of characters that are not
white space is taken; the end of input is an error. -/
def convertString (input : List Char) : Option (List Char) :=
  match SkipSpace input with
  | none => none
  | some [] => none
  | some (c :: cs) => some ((c :: cs).takeWhile (fun r => !isSpace r))

/-- The call `fmt.Sscanf(str, "%d%s", &freqInterval, &freqUnit)` with `freqInterval` a `uint16`:
`none` when it returns an error, else the two values read. Input left over after the second verb
is not an error. -/
def Sscanf (str : List Char) : Option (Nat × List Char) :=
  match scanUint str with
  | none => none
  | some (freqInterval, rest) =>
    match convertString rest with
    | none => none
    | some freqUnit => some (freqInterval, freqUnit)

/-- The call `strconv.ParseUint(s, 10, 16)`: a non-empty string of ASCII decimal digits whose
value fits 16 bits; no sign, no underscore, no space. -/
def ParseUint (s : List Char) : Option Nat :=
  if s = [] then none
  else if s.all isDigit then
    (if digitsValue s < 2 ^ 16 then some (digitsValue s) else none)
  else none

/-! ## `parseSchedule` (`main.go`, lines 34-79) -/

/-- The error of line 40. -/
def errColon : String := "Colon delimiter not found"

/-- The error of lines 52 and 67. -/
def errFrequency : String := "Frequency must be an integer followed by 'd', 'w', 'm', or 'y'"

/-- The error of line 72. -/
def errRetention : String := "Number of rotations to retain must be specified as an integer"

/-- The `switch freqUnit` of lines 57-68: the `(years, months, days)` the unit selects, with the
`uint16` product of the `w` case, or `none` in the `default` case. -/
def unitFields (freqUnit : List Char) (freqInterval : Nat) : Option (Nat × Nat × Nat) :=
  if freqUnit = ['d'] then some (0, 0, freqInterval)
  else if freqUnit = ['w'] then some (0, 0, (freqInterval * daysPerWeek) % 2 ^ 16)
  else if freqUnit = ['m'] then some (0, freqInterval, 0)
  else if freqUnit = ['y'] then some (freqInterval, 0, 0)
  else none

/-- The body of the loop of `parseSchedule` for one comma-separated token `v`: the rotation it
appends, or the error it returns. -/
def parseToken (v : List Char) : Except String rotation :=
  match Split v ':' with
  | [frequencyString, retentionString] =>
    match Sscanf frequencyString with
    | none => .error errFrequency
    | some (freqInterval, freqUnit) =>
      match unitFields freqUnit freqInterval with
      | none => .error errFrequency
      | some (years, months, days) =>
        match ParseUint retentionString with
        | none => .error errRetention
        | some retention =>
          .ok { frequency := { label := String.mk frequencyString, years := years,
                               months := months, days := days },
                retention := retention }
  | _ => .error errColon

/-- The loop of `parseSchedule` over the tokens still to read, `schedule` being the slice built so
far. The result is the pair `(schedule, err)` the function returns. -/
def parseTokens : List (List Char) → List rotation → List rotation × Option String
  | [], schedule => (schedule, none)
  | v :: vs, schedule =>
    match parseToken v with
    | .error err => (schedule, some err)
    | .ok rotation => parseTokens vs (schedule ++ [rotation])

/-- The function `parseSchedule`. -/
def parseSchedule (s : String) : List rotation × Option String :=
  parseTokens (Split s.toList ',') []

/-! ## Time (`time.Time`) -/

/-- An instant: nanoseconds since the Unix epoch. Calendar fields are those of UTC, the location
`time.Parse` gives the times it reads with a layout that names no zone. -/
abbrev Time := Int

/-- Nanoseconds in a day. -/
def nsPerDay : Int := 86400000000000

/-- Days from the Unix epoch to the civil date `(y, m, d)` of the proleptic Gregorian calendar,
`m` in `1..12`; `d` is used linearly, so a day outside the month rolls over as in `time.Date`. -/
def daysFromCivil (y m d : Int) : Int :=
  let y1 := if m ≤ 2 then y - 1 else y
  let era := y1 / 400
  let yoe := y1 - era * 400
  let doy := (153 * (if m > 2 then m - 3 else m + 9) + 2) / 5 + d - 1
  let doe := yoe * 365 + yoe / 4 - yoe / 100 + doy
  era * 146097 + doe - 719468

/-- The civil date `(year, month, day)` of a day number: the method `Date` of `time.Time`. -/
def civilFromDays (z : Int) : Int × Int × Int :=
  let z1 := z + 719468
  let era := z1 / 146097
  let doe := z1 - era * 146097
  let yoe := (doe - doe / 1460 + doe / 36524 - doe / 146096) / 365
  let doy := doe - (365 * yoe + yoe / 4 - yoe / 100)
  let mp := (5 * doy + 2) / 153
  let d := doy - (153 * mp + 2) / 5 + 1
  let m := if mp < 10 then mp + 3 else mp - 9
  (if m ≤ 2 then yoe + era * 400 + 1 else yoe + era * 400, m, d)

/-- The method `AddDate` of `time.Time`: the civil date is taken apart, the three amounts are
added to its fields, and `time.Date` normalises the result (months carry into years, days roll
over linearly); the time of day is kept. -/
def AddDate (t : Time) (years months days : Int) : Time :=
  let date := civilFromDays (t / nsPerDay)
  let m := date.2.1 - 1 + months
  daysFromCivil (date.1 + years + m / 12) (m % 12 + 1) (date.2.2 + days) * nsPerDay + t % nsPerDay

/-- The layout `config.format`, given by the two library functions it determines:
`time.Parse(config.format, name)` (`none` for an error) and `t.Format(config.format)`. -/
structure DateFormat where
  parse : String → Option Time
  format : Time → String

/-- The number `n` in decimal, padded with zeros on the left to `width` digits. -/
def padInt (n width : Nat) : List Char :=
  List.replicate (width - (Nat.toDigits 10 n).length) '0' ++ Nat.toDigits 10 n

/-- Whether `year` is a leap year. -/
def isLeap (year : Int) : Bool :=
  year % 4 == 0 && (year % 100 != 0 || year % 400 == 0)

/-- Days in a month of a year (`daysIn` of package `time`). -/
def daysIn (month year : Int) : Int :=
  if month == 2 then (if isLeap year then 29 else 28)
  else if month == 4 || month == 6 || month == 9 || month == 11 then 30
  else 31

/-- The call `time.Parse("2006-01-02", name)`: four digits, a hyphen, two digits, a hyphen, two
digits and nothing else; the month in `1..12` and the day within the month. -/
def parseISODate (name : String) : Option Time :=
  match name.toList with
  | [y1, y2, y3, y4, h1, m1, m2, h2, d1, d2] =>
    if [y1, y2, y3, y4, m1, m2, d1, d2].all isDigit && h1 == '-' && h2 == '-' then
      let year : Int := digitsValue [y1, y2, y3, y4]
      let month : Int := digitsValue [m1, m2]
      let day : Int := digitsValue [d1, d2]
      if 1 ≤ month && month ≤ 12 && 1 ≤ day && day ≤ daysIn month year then
        some (daysFromCivil year month day * nsPerDay)
      else none
    else none
  | _ => none

/-- The call `t.Format("2006-01-02")`. -/
def formatISODate (t : Time) : String :=
  let date := civilFromDays (t / nsPerDay)
  String.mk ((if date.1 < 0 then ['-'] else []) ++ padInt date.1.natAbs 4 ++ ['-'] ++
    padInt date.2.1.toNat 2 ++ ['-'] ++ padInt date.2.2.toNat 2)

/-- The default layout, `"2006-01-02"`. -/
def isoDate : DateFormat :=
  { parse := parseISODate, format := formatISODate }

/-! ## The snapshot inventory (`main.go`, lines 81-97 and 197-211) -/

/-- What the program reads of an `os.FileInfo`: `Name()` and `IsDir()`. -/
structure FileInfo where
  name : String
  isDir : Bool
deriving DecidableEq, Repr

/-- The struct `lastRotation`. -/
structure lastRotation where
  fileInfo : FileInfo
  rotatedTime : Time
deriving DecidableEq, Repr

/-- The slice type `lastRotations`. -/
abbrev lastRotations := List lastRotation

/-- The method `Less` of `lastRotations`, on the two elements it compares:
`p[a].rotatedTime.Before(p[b].rotatedTime)`. -/
def Less (a b : lastRotation) : Bool :=
  decide (a.rotatedTime < b.rotatedTime)

/-- The call `sort.Sort(foundRotations)`: the elements in the order of `Less`, ascending. For the
slices of at most 12 elements `sort.Sort` is this insertion sort; for longer ones it may order
elements of equal time differently, which no element of distinct time is affected by. -/
def sortRotations (p : lastRotations) : lastRotations :=
  p.insertionSort (fun a b => Less b a = false)

/-- The loop of lines 197-209 over the listing `files` of the bucket directory: entries that are
not directories and names that do not parse are skipped, the others are appended with their
parsed time. -/
def scanDir (fmt : DateFormat) (files : List FileInfo) : lastRotations :=
  files.filterMap (fun f =>
    if f.isDir then (fmt.parse f.name).map (fun rotatedTime => lastRotation.mk f rotatedTime)
    else none)

/-- The value of `foundRotations` after line 211: the scanned entries, sorted. -/
def foundRotations (fmt : DateFormat) (files : List FileInfo) : lastRotations :=
  sortRotations (scanDir fmt files)

/-! ## Due-check and pruning (`main.go`, lines 219-229 and 253-278) -/

/-- The value of `lastRotateTime` (line 223). -/
def lastRotateTime (timeNow : Time) (r : rotation) : Time :=
  AddDate timeNow (-(r.frequency.years : Int)) (-(r.frequency.months : Int))
    (-(r.frequency.days : Int))

/-- The value of `rotateNow` after lines 220-229. -/
def rotateNow (timeNow : Time) (r : rotation) (found : lastRotations) : Bool :=
  match found with
  | [] => true
  | first :: _ =>
    decide (first.rotatedTime < lastRotateTime timeNow r) ||
      decide (first.rotatedTime = lastRotateTime timeNow r)

/-- The value of `retainCount` after lines 254-258; the decrement is that of a `uint64`. -/
def retainCount (r : rotation) (due : Bool) : Nat :=
  if due then (r.retention + 2 ^ 64 - 1) % 2 ^ 64 else r.retention

/-- The value of `index` after lines 260-263. -/
def index (r : rotation) (due : Bool) (found : lastRotations) : Nat :=
  if retainCount r due > found.length then found.length else retainCount r due

/-- The slice `toDelete` of line 265, empty when the retention is 0 and the block is skipped. -/
def toDelete (r : rotation) (due : Bool) (found : lastRotations) : lastRotations :=
  if r.retention > 0 then found.drop (index r due found) else []

/-- The entries of `foundRotations` the pruning leaves in place: those before `index`. -/
def retained (r : rotation) (due : Bool) (found : lastRotations) : lastRotations :=
  if r.retention > 0 then found.take (index r due found) else found

/-! ## The file system

The state `rotate` reads and writes: what `os.Stat` reports of the source and of the target, and
the children of the target directory with, for each child directory, its listing. The state has
two levels below the target: the bucket directories and their entries. The paths the program
builds with `filepath.Join` are cleaned as `filepath.Join` cleans them (`joinPath`), with `/` as
the separator; a path that does not name a place of these two levels (a bucket directory below a
child directory of the target, the target itself or a path above it, a snapshot path that is not
an entry of its bucket) ends the iteration with `Error.unmodelled`, which is not an error of the
program but the edge of the model. The source is taken to lie outside the target. A file-system
call fails only for a reason the state shows (a missing path, a file where a directory is needed,
a destination that exists); permissions and device errors are not modelled, and neither is what
the program prints.
-/

/-- What `os.Stat` reports of a path. -/
inductive PathKind where
  | missing
  | file
  | dir
deriving DecidableEq, Repr

/-- A child of the target directory: a file, or a directory with its listing. -/
inductive Child where
  | file
  | dir (files : List FileInfo)
deriving DecidableEq, Repr

/-- The state of the file system. -/
structure FS where
  source : PathKind
  target : PathKind
  children : List (String × Child)
deriving DecidableEq, Repr

/-- The errors `rotate` returns, by the line that returns them; `timePanic` is the `panic` of
line 216. The last one, `unmodelled`, is not an error of the program: the path it carries names a
place the state does not describe, and the model follows the run no further. -/
inductive Error where
  | samePath (target source : String)
  | sourceMissing (source : String)
  | targetMissing (target : String)
  | targetNotDir (target : String)
  | readDir (label : String)
  | timePanic
  | stat
  | copy (curDir : String)
  | unmodelled (path : String)
deriving DecidableEq, Repr

/-- One component of a path in `filepath.Clean`, on the components kept so far below the
directory, last one first: an empty component and `.` are dropped, `..` removes the component
before it, and `none` is a path that has left the directory upwards. -/
def cleanStep (kept : Option (List (List Char))) (c : List Char) : Option (List (List Char)) :=
  match kept with
  | none => none
  | some st =>
    if c = [] ∨ c = ['.'] then some st
    else if c = ['.', '.'] then
      (match st with
       | [] => none
       | _ :: rest => some rest)
    else some (c :: st)

/-- The path `filepath.Join(dir, s)` relative to the directory `dir`, as the list of its
components after cleaning; `none` when the cleaned path is not inside `dir` or `dir` itself.
The directory is itself a cleaned path, as `filepath.Abs` leaves the target in `main`. -/
def joinPath (s : String) : Option (List String) :=
  ((Split s.toList '/').foldl cleanStep (some [])).map
    (fun st => st.reverse.map String.mk)

/-- A file name: `filepath.Join(dir, s)` is the entry `s` of `dir`. That is a string with no
separator that is not empty, `.` or `..`. -/
def isName (s : String) : Bool :=
  decide (joinPath s = some [s])

/-- The call `os.RemoveAll(filepath.Join(rotationDir, name))` on the listing of `rotationDir`. -/
def RemoveAll (name : String) (files : List FileInfo) : List FileInfo :=
  files.filter (fun f => f.name ≠ name)

/-- The loop of lines 268-276: every element of `toDelete` is removed by name. -/
def removeRotations (toDelete : lastRotations) (files : List FileInfo) : List FileInfo :=
  toDelete.foldl (fun fs d => RemoveAll d.fileInfo.name fs) files

/-- The block of lines 232-250 on the listing of the bucket directory, `curDir` being the
formatted current time that line 219 joins to the bucket directory. A missing source is the
error of line 234. When `curDir` is a file name, the destination is the entry `curDir` of the
bucket: for a directory source `shutil.CopyTree` refuses a destination that exists and otherwise
creates it; for a file source `os.Mkdir` creates the directory unless the name is taken, and
`shutil.Copy` writes the file into it (or over a file of that name). When `curDir` is not a file
name (a layout with a separator), the destination is not an entry of the bucket and the outcome
depends on what lies below or outside the bucket: `Error.unmodelled`. -/
def copySource (source : PathKind) (curDir : String) (files : List FileInfo) :
    Except Error (List FileInfo) :=
  match source with
  | .missing => .error .stat
  | .dir =>
    if isName curDir then
      (if files.any (fun f => f.name = curDir) then .error (.copy curDir)
       else .ok (files ++ [FileInfo.mk curDir true]))
    else .error (.unmodelled curDir)
  | .file =>
    if isName curDir then
      (if files.any (fun f => f.name = curDir) then .ok files
       else .ok (files ++ [FileInfo.mk curDir true]))
    else .error (.unmodelled curDir)

/-! ## `rotate` (`main.go`, lines 169-282) -/

/-- The value of `timeNow` (line 214) from the clock reading `now`; `none` is the panic. -/
def timeNow (fmt : DateFormat) (now : Time) : Option Time :=
  fmt.parse (fmt.format now)

/-- Lines 197-278 of the loop body, on the listing `files` that `ioutil.ReadDir` returned for the
bucket directory: the listing when the iteration ends, and the error it returns, if any. -/
def rotateDir (fmt : DateFormat) (now : Time) (source : PathKind) (r : rotation)
    (files : List FileInfo) : List FileInfo × Option Error :=
  match timeNow fmt now with
  | none => (files, some .timePanic)
  | some tNow =>
    if rotateNow tNow r (foundRotations fmt files) then
      match copySource source (fmt.format tNow) files with
      | .error err => (files, some err)
      | .ok copied =>
        (removeRotations (toDelete r true (foundRotations fmt files)) copied, none)
    else
      (removeRotations (toDelete r false (foundRotations fmt files)) files, none)

/-- The call `os.Mkdir(rotationDir, 0755)` of line 190, its error ignored, when `rotationDir` is
the child `name` of the target: the directory is created when the target has no child of that
name. -/
def Mkdir (name : String) (children : List (String × Child)) : List (String × Child) :=
  match children.lookup name with
  | none => children ++ [(name, Child.dir [])]
  | some _ => children

/-- The listing of the child `label` replaced by `files`. -/
def setListing (label : String) (files : List FileInfo) :
    List (String × Child) → List (String × Child)
  | [] => []
  | (name, child) :: rest =>
    if name = label then (name, Child.dir files) :: rest
    else (name, child) :: setListing label files rest

/-- One iteration of the loop of line 186 for the rule `r`, `now` being what `time.Now()` returns
in it: the children of the target afterwards, and the error returned, if any. The bucket
directory is `filepath.Join(target, label)` (line 189). When that is a child of the target, the
child is created if missing, listed and processed; a file of that name makes `ioutil.ReadDir`
fail (line 194). When it lies below a child of the target that is missing or is a file,
`os.Mkdir`, which creates no parent, and then `ioutil.ReadDir` fail. Elsewhere the state does
not describe the bucket: `Error.unmodelled`. -/
def rotateRule (fmt : DateFormat) (now : Time) (source : PathKind) (r : rotation)
    (children : List (String × Child)) : List (String × Child) × Option Error :=
  match joinPath r.frequency.label with
  | some [name] =>
    (match (Mkdir name children).lookup name with
     | some (Child.dir files) =>
       (setListing name (rotateDir fmt now source r files).1 (Mkdir name children),
         (rotateDir fmt now source r files).2)
     | _ => (Mkdir name children, some (.readDir r.frequency.label)))
  | some (parent :: _ :: _) =>
    (match children.lookup parent with
     | some (Child.dir _) => (children, some (.unmodelled r.frequency.label))
     | _ => (children, some (.readDir r.frequency.label)))
  | _ => (children, some (.unmodelled r.frequency.label))

/-- The loop of line 186 from the rule at position `i` on; `clock i` is what `time.Now()` returns
in the iteration for the rule at position `i`. -/
def rotateLoop (fmt : DateFormat) (clock : Nat → Time) (source : PathKind) :
    Nat → List rotation → List (String × Child) → List (String × Child) × Option Error
  | _, [], children => (children, none)
  | i, r :: rest, children =>
    match rotateRule fmt (clock i) source r children with
    | (children1, some err) => (children1, some err)
    | (children1, none) => rotateLoop fmt clock source (i + 1) rest children1

/-- The function `rotate`: the file system when it returns, and the error it returns (`none` for
`nil`). -/
def rotate (fmt : DateFormat) (clock : Nat → Time) (schedule : List rotation)
    (source target : String) (fs : FS) : FS × Option Error :=
  if source = target then (fs, some (.samePath target source))
  else if fs.source = .missing then (fs, some (.sourceMissing source))
  else if fs.target = .missing then (fs, some (.targetMissing target))
  else if fs.target ≠ .dir then (fs, some (.targetNotDir target))
  else
    ({ fs with children := (rotateLoop fmt clock fs.source 0 schedule fs.children).1 },
      (rotateLoop fmt clock fs.source 0 schedule fs.children).2)

/-- The value of `rotateNow` (lines 220-229) in the iteration of the loop for the rule `r` on the
children of the target, `now` being what `time.Now()` returns in it, when the bucket directory
`filepath.Join(target, label)` is a child of the target; `none` when the iteration ends before
the due-check, on the error of line 194 or the panic of line 216, and when the bucket directory
is not a child of the target. -/
def dueCheck (fmt : DateFormat) (now : Time) (r : rotation)
    (children : List (String × Child)) : Option Bool :=
  match joinPath r.frequency.label with
  | some [name] =>
    (match (Mkdir name children).lookup name with
     | some (Child.dir files) =>
       (match timeNow fmt now with
        | none => none
        | some tNow => some (rotateNow tNow r (foundRotations fmt files)))
     | _ => none)
  | _ => none

/-! ## The specification's wording of the pruning and of the due-check -/

/-- How many entries of `found` are more recent than `e`. -/
def newerCount (found : lastRotations) (e : lastRotation) : Nat :=
  (found.filter (fun x => decide (e.rotatedTime < x.rotatedTime))).length

/-- The pruning as the specification words it: the deleted entries are exactly the entries of the
inventory that are not among the `k` most recent by parsed time. -/
def deletesAllButNewest (found : lastRotations) (k : Nat) (deleted : lastRotations) : Prop :=
  ∀ e ∈ found, (e ∈ deleted ↔ k ≤ newerCount found e)

/-- The due-check as the specification words it: the greatest parsed time of the inventory is at
or before `now` minus the frequency. -/
def mostRecentIsDue (tNow : Time) (r : rotation) (found : lastRotations) : Prop :=
  ∀ e ∈ found, e.rotatedTime ≤ lastRotateTime tNow r

/-! ## The specification's wording of the schedule tokens -/

/-- The unit letters. -/
def unitLetters : List Char := ['d', 'w', 'm', 'y']

/-- A decimal integer of at most 65535: a non-empty string of decimal digits with that value. -/
def decimalUint16 (ds : List Char) : Prop :=
  ds ≠ [] ∧ (∀ c ∈ ds, isDigit c = true) ∧ digitsValue ds ≤ 65535

/-- A schedule token `<n><unit>:<r>`, by its three parts. -/
structure Token where
  interval : List Char
  unit : Char
  retention : List Char

/-- The parts of a token are a decimal integer, a unit letter and a decimal integer. -/
def Token.wellFormed (t : Token) : Prop :=
  decimalUint16 t.interval ∧ t.unit ∈ unitLetters ∧ decimalUint16 t.retention

/-- The part of a token before the colon. -/
def Token.frequencyString (t : Token) : List Char :=
  t.interval ++ [t.unit]

/-- The token as written in the schedule. -/
def Token.chars (t : Token) : List Char :=
  t.frequencyString ++ ':' :: t.retention

/-- The schedule string of a list of tokens: the tokens joined by commas. -/
def scheduleString (ts : List Token) : String :=
  String.mk ([','].intercalate (ts.map Token.chars))

/-- The frequency shape of the specification: a decimal integer in `0..65535` immediately
followed by exactly one unit letter. -/
def strictFrequency (f : List Char) : Bool :=
  decide (f.dropLast ≠ []) && f.dropLast.all isDigit && decide (digitsValue f.dropLast ≤ 65535) &&
    decide (∃ u ∈ unitLetters, f.getLast? = some u)

/-- The frequency shape the code of `parseSchedule` lets through: optional white space without a
newline, a decimal integer in `0..65535`, optional white space without a newline, one unit
letter, and then either the end of the string or a white space character followed by any
text. -/
def lenientFrequency (f : List Char) : Prop :=
  ∃ sp1 ds sp2 u tail, f = sp1 ++ (ds ++ (sp2 ++ u :: tail)) ∧
    (∀ c ∈ sp1, isSpace c = true ∧ c.toNat ≠ 10) ∧
    decimalUint16 ds ∧
    (∀ c ∈ sp2, isSpace c = true ∧ c.toNat ≠ 10) ∧
    u ∈ unitLetters ∧
    (∀ c ∈ tail.head?, isSpace c = true)

/-! ## The specification's wording of the frequency fields -/

/-- How many of the fields `years`, `months` and `days` of a frequency are not zero. -/
def nonZeroFields (f : frequency) : Nat :=
  (if f.years = 0 then 0 else 1) + (if f.months = 0 then 0 else 1) +
    (if f.days = 0 then 0 else 1)

/-! ## Pruning and due-check on concrete buckets -/

/-- C1, on the code: with the rule `1d:2`, the clock at 2020-01-10 and a bucket holding the
snapshots of 7, 8 and 9 January, `rotate` takes the snapshot of 10 January and then deletes the
snapshots of 8 and 9 January, keeping the oldest one, that of 7 January; the entries that are not
the most recent one, 7 and 8 January, are not what it deletes. -/
theorem prune_deletes_newest :
    rotateDir isoDate 1578614400000000000 PathKind.dir
        (rotation.mk (frequency.mk "1d" 0 0 1) 2)
        [FileInfo.mk "2020-01-07" true, FileInfo.mk "2020-01-08" true,
          FileInfo.mk "2020-01-09" true]
      = ([FileInfo.mk "2020-01-07" true, FileInfo.mk "2020-01-10" true], none) ∧
    (toDelete (rotation.mk (frequency.mk "1d" 0 0 1) 2) true
        (foundRotations isoDate [FileInfo.mk "2020-01-07" true, FileInfo.mk "2020-01-08" true,
          FileInfo.mk "2020-01-09" true])).map (fun d => d.fileInfo.name)
      = ["2020-01-08", "2020-01-09"] ∧
    ¬ deletesAllButNewest
        (foundRotations isoDate [FileInfo.mk "2020-01-07" true, FileInfo.mk "2020-01-08" true,
          FileInfo.mk "2020-01-09" true]) 1
        (toDelete (rotation.mk (frequency.mk "1d" 0 0 1) 2) true
          (foundRotations isoDate [FileInfo.mk "2020-01-07" true, FileInfo.mk "2020-01-08" true,
            FileInfo.mk "2020-01-09" true])) := by
  refine ⟨by decide, by decide, ?_⟩
  unfold deletesAllButNewest
  decide

/-- C2, on the code: with the rule `1d:7`, the clock at 2020-01-10 and a bucket holding the
snapshots of 1 January and of 10 January, the due-check of `rotate` is true, because it compares
the oldest snapshot with the cutoff of 9 January, although the most recent snapshot, that of
10 January, is after the cutoff. -/
theorem due_check_uses_oldest :
    rotateNow 1578614400000000000 (rotation.mk (frequency.mk "1d" 0 0 1) 7)
        (foundRotations isoDate [FileInfo.mk "2020-01-01" true, FileInfo.mk "2020-01-10" true])
      = true ∧
    timeNow isoDate 1578614400000000000 = some 1578614400000000000 ∧
    isoDate.format (lastRotateTime 1578614400000000000
        (rotation.mk (frequency.mk "1d" 0 0 1) 7)) = "2020-01-09" ∧
    ¬ mostRecentIsDue 1578614400000000000 (rotation.mk (frequency.mk "1d" 0 0 1) 7)
        (foundRotations isoDate [FileInfo.mk "2020-01-01" true, FileInfo.mk "2020-01-10" true]) := by
  refine ⟨by decide, by decide, by decide, ?_⟩
  unfold mostRecentIsDue
  decide

/-! ## Preconditions of `rotate` -/

/-- C10: when source and target are the same path, or the source does not exist, or the target
does not exist or is not a directory, `rotate` returns an error and the file system is the one it
was given. -/
theorem rotate_precondition_failure (fmt : DateFormat) (clock : Nat → Time)
    (schedule : List rotation) (source target : String) (fs : FS)
    (h : source = target ∨ fs.source = PathKind.missing ∨ fs.target = PathKind.missing ∨
      fs.target ≠ PathKind.dir) :
    ∃ err, rotate fmt clock schedule source target fs = (fs, some err) := by
  unfold rotate
  by_cases h1 : source = target
  · exact ⟨_, if_pos h1⟩
  · by_cases h2 : fs.source = PathKind.missing
    · exact ⟨_, by rw [if_neg h1, if_pos h2]⟩
    · by_cases h3 : fs.target = PathKind.missing
      · exact ⟨_, by rw [if_neg h1, if_neg h2, if_pos h3]⟩
      · by_cases h4 : fs.target ≠ PathKind.dir
        · exact ⟨_, by rw [if_neg h1, if_neg h2, if_neg h3, if_pos h4]⟩
        · rcases h with h | h | h | h
          · exact absurd h h1
          · exact absurd h h2
          · exact absurd h h3
          · exact absurd h h4

/-- C10 at a concrete input: the target is a file, the schedule is `1d:7`. -/
theorem rotate_precondition_failure_witness :
    (FS.mk PathKind.dir PathKind.file []).target ≠ PathKind.dir ∧
    ∃ err, rotate isoDate (fun _ => 1578614400000000000)
        [rotation.mk (frequency.mk "1d" 0 0 1) 7] "foo" "bar"
        (FS.mk PathKind.dir PathKind.file [])
      = (FS.mk PathKind.dir PathKind.file [], some err) :=
  ⟨by decide, rotate_precondition_failure isoDate (fun _ => 1578614400000000000)
    [rotation.mk (frequency.mk "1d" 0 0 1) 7] "foo" "bar" (FS.mk PathKind.dir PathKind.file [])
    (Or.inr (Or.inr (Or.inr (by decide))))⟩

/-! ## Lemmas on the inventory and on the removal loop -/

theorem mem_scanDir (fmt : DateFormat) (files : List FileInfo) (x : lastRotation) :
    x ∈ scanDir fmt files ↔
      x.fileInfo ∈ files ∧ x.fileInfo.isDir = true ∧
        fmt.parse x.fileInfo.name = some x.rotatedTime := by
  unfold scanDir
  rw [List.mem_filterMap]
  constructor
  · rintro ⟨f, hf, hx⟩
    by_cases hd : f.isDir = true
    · rw [if_pos hd] at hx
      cases hp : fmt.parse f.name with
      | none => rw [hp] at hx; simp at hx
      | some t =>
        rw [hp] at hx
        simp only [Option.map_some', Option.some.injEq] at hx
        subst hx
        exact ⟨hf, hd, hp⟩
    · rw [if_neg hd] at hx
      simp at hx
  · rintro ⟨hf, hd, hp⟩
    refine ⟨x.fileInfo, hf, ?_⟩
    rw [if_pos hd, hp]
    rfl

theorem scanDir_append (fmt : DateFormat) (xs ys : List FileInfo) :
    scanDir fmt (xs ++ ys) = scanDir fmt xs ++ scanDir fmt ys := by
  unfold scanDir
  exact List.filterMap_append _ _ _

theorem scanDir_filter (fmt : DateFormat) (q : FileInfo → Bool) (files : List FileInfo) :
    scanDir fmt (files.filter q) = (scanDir fmt files).filter (fun x => q x.fileInfo) := by
  induction files with
  | nil => rfl
  | cons f fs ih =>
    have hcons : scanDir fmt (f :: fs) = scanDir fmt [f] ++ scanDir fmt fs :=
      scanDir_append fmt [f] fs
    by_cases hq : q f = true
    · rw [List.filter_cons_of_pos hq, hcons, List.filter_append, ← ih]
      have h1 : scanDir fmt (f :: fs.filter q) = scanDir fmt [f] ++ scanDir fmt (fs.filter q) :=
        scanDir_append fmt [f] (fs.filter q)
      rw [h1]
      congr 1
      symm
      rw [List.filter_eq_self]
      intro x hx
      rw [mem_scanDir] at hx
      have : x.fileInfo = f := by simpa using hx.1
      rw [this]
      exact hq
    · rw [List.filter_cons_of_neg hq, hcons, List.filter_append, ← ih]
      have h0 : (scanDir fmt [f]).filter (fun x => q x.fileInfo) = [] := by
        rw [List.filter_eq_nil_iff]
        intro x hx
        rw [mem_scanDir] at hx
        have : x.fileInfo = f := by simpa using hx.1
        rw [this]
        exact hq
      rw [h0, List.nil_append]

theorem scanDir_singleton_length (fmt : DateFormat) (f : FileInfo) :
    (scanDir fmt [f]).length ≤ 1 := by
  unfold scanDir
  exact le_trans (List.length_filterMap_le _ _) (by simp)

theorem foundRotations_perm (fmt : DateFormat) (files : List FileInfo) :
    (foundRotations fmt files).Perm (scanDir fmt files) :=
  List.perm_insertionSort _ _

theorem mem_foundRotations (fmt : DateFormat) (files : List FileInfo) (x : lastRotation) :
    x ∈ foundRotations fmt files ↔ x ∈ scanDir fmt files :=
  (foundRotations_perm fmt files).mem_iff

theorem removeRotations_eq_filter (del : lastRotations) (files : List FileInfo) :
    removeRotations del files =
      files.filter (fun f => decide (f.name ∉ del.map (fun d => d.fileInfo.name))) := by
  induction del generalizing files with
  | nil => simp [removeRotations]
  | cons d ds ih =>
    have hstep : removeRotations (d :: ds) files =
        removeRotations ds (RemoveAll d.fileInfo.name files) := rfl
    rw [hstep, ih]
    unfold RemoveAll
    rw [List.filter_filter]
    apply List.filter_congr
    intro f _
    simp only [List.map_cons, List.mem_cons, not_or, ne_eq, Bool.decide_and, decide_not,
      Bool.and_comm]

theorem toDelete_subset (r : rotation) (due : Bool) (found : lastRotations) :
    ∀ d ∈ toDelete r due found, d ∈ found := by
  intro d hd
  unfold toDelete at hd
  split at hd
  · exact List.mem_of_mem_drop hd
  · simp at hd

theorem retainCount_le (r : rotation) (due : Bool) (h : 0 < r.retention) :
    retainCount r due + (if due then 1 else 0) ≤ r.retention := by
  unfold retainCount
  cases due with
  | false => simp
  | true =>
    simp only [if_true]
    have h1 : r.retention + 2 ^ 64 - 1 = (r.retention - 1) + 2 ^ 64 := by omega
    rw [h1, Nat.add_mod_right]
    have := Nat.mod_le (r.retention - 1) (2 ^ 64)
    omega

theorem index_le_retainCount (r : rotation) (due : Bool) (found : lastRotations) :
    index r due found ≤ retainCount r due := by
  unfold index
  split <;> omega

/-- After the removal loop, the directories of `files` that parse number at most `index`. -/
theorem scanDir_removeRotations_length (fmt : DateFormat) (r : rotation) (due : Bool)
    (files : List FileInfo) (h : 0 < r.retention) :
    (scanDir fmt (removeRotations (toDelete r due (foundRotations fmt files)) files)).length ≤
      index r due (foundRotations fmt files) := by
  rw [removeRotations_eq_filter, scanDir_filter]
  have hperm := (foundRotations_perm fmt files).symm.filter (fun x : lastRotation =>
    decide (x.fileInfo.name ∉
      (toDelete r due (foundRotations fmt files)).map (fun d => d.fileInfo.name)))
  rw [hperm.length_eq]
  have hsplit : foundRotations fmt files =
      (foundRotations fmt files).take (index r due (foundRotations fmt files)) ++
        toDelete r due (foundRotations fmt files) := by
    unfold toDelete
    rw [if_pos h, List.take_append_drop]
  have hnil : (toDelete r due (foundRotations fmt files)).filter (fun x : lastRotation =>
      decide (x.fileInfo.name ∉
        (toDelete r due (foundRotations fmt files)).map (fun d => d.fileInfo.name))) = [] := by
    rw [List.filter_eq_nil_iff]
    intro x hx
    simp only [decide_eq_true_eq, not_not]
    exact List.mem_map_of_mem (fun d : lastRotation => d.fileInfo.name) hx
  have key : ∀ (p : lastRotation → Bool) (l a b : lastRotations), l = a ++ b →
      b.filter p = [] → (l.filter p).length ≤ a.length := by
    intro p l a b hl hb
    rw [hl, List.filter_append, hb, List.append_nil]
    exact List.length_filter_le _ _
  exact le_trans (key _ _ _ _ hsplit hnil) (by simp)

/-! ## Lemmas on the copy -/

/-- What a successful copy leaves: the destination is a file name, and the listing either is
unchanged, an entry of that name being there already, or has the new directory at its end, no
entry having had that name. -/
theorem copySource_eq_ok (source : PathKind) (curDir : String) (files copied : List FileInfo)
    (h : copySource source curDir files = .ok copied) :
    isName curDir = true ∧
      ((copied = files ∧ ∃ f ∈ files, f.name = curDir) ∨
        (copied = files ++ [FileInfo.mk curDir true] ∧ ∀ f ∈ files, f.name ≠ curDir)) := by
  have hfree : ¬ (files.any (fun f => decide (f.name = curDir)) = true) →
      ∀ f ∈ files, f.name ≠ curDir := by
    intro ha f hf hname
    apply ha
    rw [List.any_eq_true]
    exact ⟨f, hf, by simpa using hname⟩
  have htaken : files.any (fun f => decide (f.name = curDir)) = true →
      ∃ f ∈ files, f.name = curDir := by
    intro ha
    rw [List.any_eq_true] at ha
    obtain ⟨f, hf, hname⟩ := ha
    exact ⟨f, hf, by simpa using hname⟩
  unfold copySource at h
  cases source with
  | missing => simp at h
  | dir =>
    simp only at h
    split at h
    · rename_i hn
      split at h
      · simp at h
      · rename_i ha
        simp only [Except.ok.injEq] at h
        exact ⟨hn, Or.inr ⟨h.symm, hfree ha⟩⟩
    · simp at h
  | file =>
    simp only at h
    split at h
    · rename_i hn
      split at h
      · rename_i ha
        simp only [Except.ok.injEq] at h
        exact ⟨hn, Or.inl ⟨h.symm, htaken ha⟩⟩
      · rename_i ha
        simp only [Except.ok.injEq] at h
        exact ⟨hn, Or.inr ⟨h.symm, hfree ha⟩⟩
    · simp at h

/-- The copy onto a free file name succeeds and adds the new directory. -/
theorem copySource_fresh (source : PathKind) (curDir : String) (files : List FileInfo)
    (hsrc : source ≠ PathKind.missing) (hname : isName curDir = true)
    (hfree : ∀ f ∈ files, f.name ≠ curDir) :
    copySource source curDir files = .ok (files ++ [FileInfo.mk curDir true]) := by
  have hnone : ¬ (files.any (fun f => decide (f.name = curDir)) = true) := by
    intro hany
    rw [List.any_eq_true] at hany
    obtain ⟨f, hf, hn⟩ := hany
    exact hfree f hf (by simpa using hn)
  unfold copySource
  cases source with
  | missing => exact absurd rfl hsrc
  | dir =>
    simp only
    rw [if_pos hname, if_neg hnone]
  | file =>
    simp only
    rw [if_pos hname, if_neg hnone]

/-! ## Retention bound -/

/-- C4: for a rule with retention `N > 0`, when `rotate` has processed a bucket without error, the
directories of the bucket whose names parse under the date format, the snapshot of this run
included, number at most `N`. -/
theorem retention_bound (fmt : DateFormat) (now : Time) (source : PathKind) (r : rotation)
    (files files1 : List FileInfo) (hN : 0 < r.retention)
    (hrun : rotateDir fmt now source r files = (files1, none)) :
    (scanDir fmt files1).length ≤ r.retention := by
  unfold rotateDir at hrun
  cases ht : timeNow fmt now with
  | none => rw [ht] at hrun; simp at hrun
  | some tNow =>
    rw [ht] at hrun
    simp only at hrun
    by_cases hdue : rotateNow tNow r (foundRotations fmt files) = true
    · rw [if_pos hdue] at hrun
      have hcount := retainCount_le r true hN
      have hidx := index_le_retainCount r true (foundRotations fmt files)
      simp only [if_true] at hcount
      cases hc : copySource source (fmt.format tNow) files with
      | error e => rw [hc] at hrun; simp at hrun
      | ok copied =>
        rw [hc] at hrun
        simp only [Prod.mk.injEq, and_true] at hrun
        subst hrun
        have hcopied : copied = files ∨ copied = files ++ [FileInfo.mk (fmt.format tNow) true] := by
          rcases (copySource_eq_ok _ _ _ _ hc).2 with h | h
          · exact Or.inl h.1
          · exact Or.inr h.1
        rcases hcopied with hcp | hcp
        · rw [hcp]
          have := scanDir_removeRotations_length fmt r true files hN
          omega
        · rw [hcp, removeRotations_eq_filter, List.filter_append, scanDir_append,
            List.length_append, ← removeRotations_eq_filter]
          have h1 := scanDir_removeRotations_length fmt r true files hN
          have h2 : (scanDir fmt ([FileInfo.mk (fmt.format tNow) true].filter (fun f =>
              decide (f.name ∉ (toDelete r true (foundRotations fmt files)).map
                (fun d => d.fileInfo.name))))).length ≤ 1 := by
            rw [scanDir_filter]
            exact le_trans (List.length_filter_le _ _) (scanDir_singleton_length fmt _)
          omega
    · rw [if_neg hdue] at hrun
      simp only [Prod.mk.injEq, and_true] at hrun
      subst hrun
      have hcount := retainCount_le r false hN
      have hidx := index_le_retainCount r false (foundRotations fmt files)
      have := scanDir_removeRotations_length fmt r false files hN
      simp at hcount
      omega

/-- C4 at a concrete input: the rule `1d:1` on a bucket holding the snapshots of 8 and 9 January,
the clock at 2020-01-10; one snapshot remains. -/
theorem retention_bound_witness :
    (0 < (rotation.mk (frequency.mk "1d" 0 0 1) 1).retention ∧
      rotateDir isoDate 1578614400000000000 PathKind.file
          (rotation.mk (frequency.mk "1d" 0 0 1) 1)
          [FileInfo.mk "2020-01-08" true, FileInfo.mk "2020-01-09" true]
        = ([FileInfo.mk "2020-01-10" true], none)) ∧
    (scanDir isoDate [FileInfo.mk "2020-01-10" true]).length ≤
      (rotation.mk (frequency.mk "1d" 0 0 1) 1).retention :=
  ⟨⟨by decide, by decide⟩,
    retention_bound isoDate 1578614400000000000 PathKind.file
      (rotation.mk (frequency.mk "1d" 0 0 1) 1)
      [FileInfo.mk "2020-01-08" true, FileInfo.mk "2020-01-09" true]
      [FileInfo.mk "2020-01-10" true] (by decide) (by decide)⟩

/-! ## Entries that are not snapshots -/

theorem scanDir_fileInfo_inj (fmt : DateFormat) (files : List FileInfo)
    (hnodup : (files.map (fun f => f.name)).Nodup) (x y : lastRotation)
    (hx : x ∈ scanDir fmt files) (hy : y ∈ scanDir fmt files)
    (hname : x.fileInfo.name = y.fileInfo.name) : x = y := by
  rw [mem_scanDir] at hx hy
  have hf : x.fileInfo = y.fileInfo :=
    List.inj_on_of_nodup_map hnodup hx.1 hy.1 hname
  have ht : some x.rotatedTime = some y.rotatedTime := by
    rw [← hx.2.2, ← hy.2.2, hname]
  cases x
  cases y
  simp only [Option.some.injEq] at ht
  simp only at hf
  rw [hf, ht]

theorem copySource_mem (source : PathKind) (curDir : String) (files copied : List FileInfo)
    (h : copySource source curDir files = .ok copied) (e : FileInfo) (he : e ∈ files) :
    e ∈ copied := by
  rcases (copySource_eq_ok _ _ _ _ h).2 with h1 | h1
  · rw [h1.1]
    exact he
  · rw [h1.1]
    exact List.mem_append_left _ he

/-- C5: an entry of the bucket listing that is not a directory, or whose name does not parse
under the date format, is not in the inventory, is not the entry the due-check compares, has a
name that is not among the names `rotate` deletes, whatever the rule, and is still in the listing
when the iteration ends. The names of a listing are distinct. -/
theorem unparseable_untouched (fmt : DateFormat) (now : Time) (source : PathKind) (r : rotation)
    (files : List FileInfo) (e : FileInfo)
    (hnodup : (files.map (fun f => f.name)).Nodup) (he : e ∈ files)
    (hbad : e.isDir = false ∨ fmt.parse e.name = none) :
    (∀ x ∈ foundRotations fmt files, x.fileInfo ≠ e) ∧
    (∀ x, (foundRotations fmt files).head? = some x → x.fileInfo ≠ e) ∧
    (∀ due, ∀ d ∈ toDelete r due (foundRotations fmt files), d.fileInfo.name ≠ e.name) ∧
    e ∈ (rotateDir fmt now source r files).1 := by
  have hinv : ∀ x ∈ foundRotations fmt files, x.fileInfo ≠ e := by
    intro x hx hxe
    rw [mem_foundRotations, mem_scanDir] at hx
    rw [hxe] at hx
    rcases hbad with hb | hb
    · rw [hb] at hx
      exact absurd hx.2.1 (by simp)
    · rw [hb] at hx
      exact absurd hx.2.2 (by simp)
  have hdel : ∀ due, ∀ d ∈ toDelete r due (foundRotations fmt files),
      d.fileInfo.name ≠ e.name := by
    intro due d hd hname
    have hdf := toDelete_subset r due _ d hd
    have hd1 := hdf
    rw [mem_foundRotations, mem_scanDir] at hd1
    exact hinv d hdf (List.inj_on_of_nodup_map hnodup hd1.1 he hname)
  have hkeep : ∀ due (l : List FileInfo), e ∈ l →
      e ∈ removeRotations (toDelete r due (foundRotations fmt files)) l := by
    intro due l hl
    rw [removeRotations_eq_filter, List.mem_filter]
    refine ⟨hl, ?_⟩
    simp only [decide_eq_true_eq, List.mem_map, not_exists, not_and]
    intro d hd hname
    exact hdel due d hd hname
  refine ⟨hinv, ?_, hdel, ?_⟩
  · intro x hx
    exact hinv x (List.mem_of_mem_head? hx)
  · unfold rotateDir
    cases timeNow fmt now with
    | none => exact he
    | some tNow =>
      simp only
      split
      · cases hc : copySource source (fmt.format tNow) files with
        | error err => exact he
        | ok copied => exact hkeep true copied (copySource_mem _ _ _ _ hc e he)
      · exact hkeep false files he

/-- C5 at a concrete input: a bucket with two old snapshots, a directory `notes` and a file
`2020-01-01.txt`, under the rule `1d:1`; the directory `notes` is kept. -/
theorem unparseable_untouched_witness :
    (([FileInfo.mk "2020-01-08" true, FileInfo.mk "notes" true, FileInfo.mk "2020-01-09" true,
        FileInfo.mk "2020-01-01.txt" false].map (fun f => f.name)).Nodup ∧
      isoDate.parse (FileInfo.mk "notes" true).name = none) ∧
    ((∀ x ∈ foundRotations isoDate [FileInfo.mk "2020-01-08" true, FileInfo.mk "notes" true,
        FileInfo.mk "2020-01-09" true, FileInfo.mk "2020-01-01.txt" false],
        x.fileInfo ≠ FileInfo.mk "notes" true) ∧
    (∀ x, (foundRotations isoDate [FileInfo.mk "2020-01-08" true, FileInfo.mk "notes" true,
        FileInfo.mk "2020-01-09" true, FileInfo.mk "2020-01-01.txt" false]).head? = some x →
        x.fileInfo ≠ FileInfo.mk "notes" true) ∧
    (∀ due, ∀ d ∈ toDelete (rotation.mk (frequency.mk "1d" 0 0 1) 1) due
        (foundRotations isoDate [FileInfo.mk "2020-01-08" true, FileInfo.mk "notes" true,
          FileInfo.mk "2020-01-09" true, FileInfo.mk "2020-01-01.txt" false]),
        d.fileInfo.name ≠ (FileInfo.mk "notes" true).name) ∧
    FileInfo.mk "notes" true ∈ (rotateDir isoDate 1578614400000000000 PathKind.file
        (rotation.mk (frequency.mk "1d" 0 0 1) 1)
        [FileInfo.mk "2020-01-08" true, FileInfo.mk "notes" true, FileInfo.mk "2020-01-09" true,
          FileInfo.mk "2020-01-01.txt" false]).1) :=
  ⟨⟨by decide, by decide⟩,
    unparseable_untouched isoDate 1578614400000000000 PathKind.file
      (rotation.mk (frequency.mk "1d" 0 0 1) 1)
      [FileInfo.mk "2020-01-08" true, FileInfo.mk "notes" true, FileInfo.mk "2020-01-09" true,
        FileInfo.mk "2020-01-01.txt" false]
      (FileInfo.mk "notes" true) (by decide) (by decide) (Or.inr (by decide))⟩

/-! ## Running twice within one date window -/

theorem scanDir_map_fileInfo (fmt : DateFormat) (files : List FileInfo) :
    (scanDir fmt files).map (fun x => x.fileInfo) =
      files.filter (fun f => f.isDir && (fmt.parse f.name).isSome) := by
  induction files with
  | nil => rfl
  | cons f fs ih =>
    have hcons : scanDir fmt (f :: fs) = scanDir fmt [f] ++ scanDir fmt fs :=
      scanDir_append fmt [f] fs
    rw [hcons, List.map_append, ih]
    unfold scanDir
    cases hd : f.isDir <;> cases hp : fmt.parse f.name <;>
      simp [List.filterMap_cons, List.filter_cons, hd, hp]

theorem scanDir_nodup (fmt : DateFormat) (files : List FileInfo)
    (hnodup : (files.map (fun f => f.name)).Nodup) : (scanDir fmt files).Nodup := by
  have h1 : ((scanDir fmt files).map (fun x => x.fileInfo)).Nodup := by
    rw [scanDir_map_fileInfo]
    exact (List.Nodup.of_map _ hnodup).filter _
  exact List.Nodup.of_map _ h1

theorem rotateNow_false_of_fresh (tNow : Time) (r : rotation) (found : lastRotations)
    (hne : found ≠ []) (hfresh : ∀ x ∈ found, lastRotateTime tNow r < x.rotatedTime) :
    rotateNow tNow r found = false := by
  cases found with
  | nil => exact absurd rfl hne
  | cons x rest =>
    have hx := hfresh x (List.mem_cons_self _ _)
    unfold rotateNow
    simp only [Bool.or_eq_false_iff, decide_eq_false_iff_not]
    exact ⟨not_lt_of_lt hx, ne_of_gt hx⟩

/-- C3, as stated, fails on the code: the parser accepts the rule `0d:7`, whose cutoff is the
current time itself; on an empty bucket the first run takes the snapshot of 10 January, and in
the second run, with the same current time, the due-check is true again. -/
theorem zero_frequency_due_twice :
    parseSchedule "0d:7" = ([rotation.mk (frequency.mk "0d" 0 0 0) 7], none) ∧
    timeNow isoDate 1578614400000000000 = some 1578614400000000000 ∧
    rotateDir isoDate 1578614400000000000 PathKind.file
        (rotation.mk (frequency.mk "0d" 0 0 0) 7) []
      = ([FileInfo.mk "2020-01-10" true], none) ∧
    rotateNow 1578614400000000000 (rotation.mk (frequency.mk "0d" 0 0 0) 7)
        (foundRotations isoDate [FileInfo.mk "2020-01-10" true]) = true := by
  refine ⟨by decide, by decide, by decide, by decide⟩

/-- C3, amended: take a date format under which the formatted current time is a file name (it
has no path separator), a rule whose cutoff, the current time minus the frequency, is before the
current time, and a bucket in which every snapshot is after the cutoff (an empty bucket is one)
and no entry that is not a directory carries the name of the current time. If `rotate` processes
the bucket without error and is run again with the same truncated current time on the resulting
bucket, the due-check of the second run is false. The names of a listing are distinct, and the
date format reads the name of the current time back as the current time. -/
theorem second_run_not_due (fmt : DateFormat) (now tNow : Time) (source : PathKind)
    (r : rotation) (files files1 : List FileInfo)
    (hnodup : (files.map (fun f => f.name)).Nodup)
    (hnow : timeNow fmt now = some tNow)
    (hname : isName (fmt.format tNow) = true)
    (hround : fmt.parse (fmt.format tNow) = some tNow)
    (hcut : lastRotateTime tNow r < tNow)
    (hfresh : ∀ x ∈ scanDir fmt files, lastRotateTime tNow r < x.rotatedTime)
    (hfile : ∀ f ∈ files, f.name = fmt.format tNow → f.isDir = true)
    (hrun : rotateDir fmt now source r files = (files1, none)) :
    rotateNow tNow r (foundRotations fmt files1) = false := by
  unfold rotateDir at hrun
  rw [hnow] at hrun
  simp only at hrun
  by_cases hdue : rotateNow tNow r (foundRotations fmt files) = true
  · rw [if_pos hdue] at hrun
    have hfound : foundRotations fmt files = [] := by
      cases hf : foundRotations fmt files with
      | nil => rfl
      | cons x rest =>
        have hx : x ∈ foundRotations fmt files := by rw [hf]; exact List.mem_cons_self _ _
        have hlt := hfresh x ((mem_foundRotations fmt files x).mp hx)
        rw [hf] at hdue
        unfold rotateNow at hdue
        simp only [Bool.or_eq_true, decide_eq_true_eq] at hdue
        rcases hdue with h | h
        · exact absurd h (not_lt_of_lt hlt)
        · exact absurd h (ne_of_gt hlt)
    have hscan : scanDir fmt files = [] := by
      have hp := foundRotations_perm fmt files
      rw [hfound] at hp
      exact List.nil_perm.mp hp
    have hcur : scanDir fmt [FileInfo.mk (fmt.format tNow) true] =
        [lastRotation.mk (FileInfo.mk (fmt.format tNow) true) tNow] := by
      simp [scanDir, List.filterMap_cons, hround]
    cases hc : copySource source (fmt.format tNow) files with
    | error e => rw [hc] at hrun; simp at hrun
    | ok copied =>
      rw [hc, hfound] at hrun
      have hdel : toDelete r true [] = [] := by
        unfold toDelete
        split <;> simp
      rw [hdel] at hrun
      simp only [removeRotations, List.foldl_nil, Prod.mk.injEq, and_true] at hrun
      subst hrun
      have hfree : ∀ f ∈ files, f.name ≠ fmt.format tNow := by
        intro f hf hn
        have hmem : lastRotation.mk f tNow ∈ scanDir fmt files := by
          rw [mem_scanDir]
          exact ⟨hf, hfile f hf hn, by simpa [hn] using hround⟩
        rw [hscan] at hmem
        simp at hmem
      have hsrc : source ≠ PathKind.missing := by
        intro hm
        rw [hm] at hc
        simp [copySource] at hc
      have hcopied : copied = files ++ [FileInfo.mk (fmt.format tNow) true] := by
        have h2 := copySource_fresh source (fmt.format tNow) files hsrc hname hfree
        rw [hc] at h2
        simpa using h2
      have hfound1 : foundRotations fmt copied =
          [lastRotation.mk (FileInfo.mk (fmt.format tNow) true) tNow] := by
        unfold foundRotations
        rw [hcopied, scanDir_append, hscan, List.nil_append, hcur]
        simp [sortRotations]
      rw [hfound1]
      unfold rotateNow
      simp only [Bool.or_eq_false_iff, decide_eq_false_iff_not]
      exact ⟨not_lt_of_lt hcut, ne_of_gt hcut⟩
  · rw [if_neg hdue] at hrun
    simp only [Prod.mk.injEq, and_true] at hrun
    subst hrun
    have hsub : ∀ x ∈ scanDir fmt
        (removeRotations (toDelete r false (foundRotations fmt files)) files),
        x ∈ scanDir fmt files := by
      intro x hx
      rw [removeRotations_eq_filter, scanDir_filter] at hx
      exact List.mem_of_mem_filter hx
    apply rotateNow_false_of_fresh
    · cases hf : foundRotations fmt files with
      | nil =>
        rw [hf] at hdue
        exact absurd rfl hdue
      | cons x0 rest =>
        have hx0 : x0 ∈ foundRotations fmt files := by rw [hf]; exact List.mem_cons_self _ _
        have hx0s : x0 ∈ scanDir fmt files := (mem_foundRotations fmt files x0).mp hx0
        have hnd : (x0 :: rest).Nodup := by
          rw [← hf]
          exact (foundRotations_perm fmt files).nodup_iff.mpr (scanDir_nodup fmt files hnodup)
        have hkeep : x0 ∈ scanDir fmt (removeRotations (toDelete r false (x0 :: rest)) files) := by
          rw [removeRotations_eq_filter, scanDir_filter, List.mem_filter]
          refine ⟨hx0s, ?_⟩
          simp only [decide_eq_true_eq, List.mem_map, not_exists, not_and]
          intro y hy hname
          have hyf : y ∈ foundRotations fmt files := by
            rw [hf]
            exact toDelete_subset r false _ y hy
          have hyx : y = x0 :=
            scanDir_fileInfo_inj fmt files hnodup y x0
              ((mem_foundRotations fmt files y).mp hyf) hx0s hname
          subst hyx
          unfold toDelete at hy
          split at hy
          · rename_i hpos
            have hidx : 1 ≤ index r false (y :: rest) := by
              unfold index retainCount
              simp only [Bool.false_eq_true, if_false, List.length_cons]
              split <;> omega
            obtain ⟨k, hk⟩ : ∃ k, index r false (y :: rest) = k + 1 :=
              ⟨index r false (y :: rest) - 1, by omega⟩
            rw [hk, List.drop_succ_cons] at hy
            exact (List.nodup_cons.mp hnd).1 (List.mem_of_mem_drop hy)
          · simp at hy
        intro hnil
        have hmem := (mem_foundRotations fmt _ x0).mpr hkeep
        rw [hnil] at hmem
        simp at hmem
    · intro x hx
      exact hfresh x (hsub x ((mem_foundRotations fmt _ x).mp hx))

/-- C3, amended, at a concrete input: the rule `1d:7` on an empty bucket, the clock at
2020-01-10; the first run takes the snapshot and the second run is not due. -/
theorem second_run_not_due_witness :
    ((([] : List FileInfo).map (fun f => f.name)).Nodup ∧
      timeNow isoDate 1578614400000000000 = some 1578614400000000000 ∧
      isName (isoDate.format 1578614400000000000) = true ∧
      isoDate.parse (isoDate.format 1578614400000000000) = some 1578614400000000000 ∧
      lastRotateTime 1578614400000000000 (rotation.mk (frequency.mk "1d" 0 0 1) 7)
        < 1578614400000000000 ∧
      rotateDir isoDate 1578614400000000000 PathKind.dir
          (rotation.mk (frequency.mk "1d" 0 0 1) 7) []
        = ([FileInfo.mk "2020-01-10" true], none)) ∧
    rotateNow 1578614400000000000 (rotation.mk (frequency.mk "1d" 0 0 1) 7)
      (foundRotations isoDate [FileInfo.mk "2020-01-10" true]) = false :=
  ⟨⟨by decide, by decide, by decide, by decide, by decide, by decide⟩,
    second_run_not_due isoDate 1578614400000000000 1578614400000000000 PathKind.dir
      (rotation.mk (frequency.mk "1d" 0 0 1) 7) [] [FileInfo.mk "2020-01-10" true]
      (by decide) (by decide) (by decide) (by decide) (by decide) (by simp [scanDir]) (by simp)
      (by decide)⟩

/-! ## Lemmas on the scanner -/

theorem isDigit_not_space (c : Char) (h : isDigit c = true) :
    isSpace c = false ∧ c.toNat ≠ 10 := by
  unfold isDigit at h
  simp only [Bool.and_eq_true, decide_eq_true_eq] at h
  unfold isSpace
  refine ⟨?_, by omega⟩
  simp only [Bool.or_eq_false_iff, Bool.and_eq_false_iff, decide_eq_false_iff_not,
    beq_eq_false_iff_ne, ne_eq]
  omega

theorem unitLetter_cases (u : Char) (h : u ∈ unitLetters) :
    u = 'd' ∨ u = 'w' ∨ u = 'm' ∨ u = 'y' := by
  simpa [unitLetters] using h

theorem unitLetter_not_space (u : Char) (h : u ∈ unitLetters) :
    isSpace u = false ∧ u.toNat ≠ 10 ∧ isDigit u = false := by
  rcases unitLetter_cases u h with h | h | h | h <;> subst h <;> decide

theorem space_not_digit (c : Char) (h : isSpace c = true) : isDigit c = false := by
  cases hd : isDigit c with
  | false => rfl
  | true =>
    rw [(isDigit_not_space c hd).1] at h
    exact absurd h (by simp)

/-- What `SkipSpace` returns on success: the input without its leading white space; the white
space has no newline, and what is left does not start with white space. -/
theorem SkipSpace_eq_some (l rest : List Char) :
    SkipSpace l = some rest ↔
      ∃ sp, l = sp ++ rest ∧ (∀ c ∈ sp, isSpace c = true ∧ c.toNat ≠ 10) ∧
        (∀ c ∈ rest.head?, isSpace c = false) := by
  constructor
  · induction l with
    | nil =>
      intro h
      simp only [SkipSpace, Option.some.injEq] at h
      subst h
      exact ⟨[], rfl, by simp, by simp⟩
    | cons c cs ih =>
      intro h
      unfold SkipSpace at h
      by_cases hnl : c.toNat = 10
      · rw [if_pos hnl] at h
        simp at h
      · rw [if_neg hnl] at h
        by_cases hsp : isSpace c = true
        · rw [if_pos hsp] at h
          obtain ⟨sp, hl, hsp1, hrest⟩ := ih h
          refine ⟨c :: sp, by rw [hl]; rfl, ?_, hrest⟩
          intro x hx
          rcases List.mem_cons.mp hx with hx | hx
          · rw [hx]; exact ⟨hsp, hnl⟩
          · exact hsp1 x hx
        · rw [if_neg hsp] at h
          simp only [Option.some.injEq] at h
          subst h
          exact ⟨[], rfl, by simp, by simpa using hsp⟩
  · rintro ⟨sp, hl, hsp, hrest⟩
    subst hl
    induction sp with
    | nil =>
      cases rest with
      | nil => rfl
      | cons c cs =>
        have hc : isSpace c = false := hrest c (by simp)
        have hnl : c.toNat ≠ 10 := by
          intro h10
          have : isSpace c = true := by
            unfold isSpace
            rw [h10]
            decide
          rw [hc] at this
          exact absurd this (by simp)
        simp only [List.nil_append]
        unfold SkipSpace
        rw [if_neg hnl, hc]
        simp
    | cons c sp ih =>
      have hc := hsp c (List.mem_cons_self _ _)
      simp only [List.cons_append]
      unfold SkipSpace
      rw [if_neg hc.2, if_pos hc.1]
      exact ih (fun x hx => hsp x (List.mem_cons_of_mem _ hx))

theorem SkipSpace_digit (c : Char) (cs : List Char) (h : isDigit c = true) :
    SkipSpace (c :: cs) = some (c :: cs) := by
  rw [SkipSpace_eq_some]
  exact ⟨[], rfl, by simp, by simpa using (isDigit_not_space c h).1⟩

/-- The scanner on a decimal integer followed by a unit letter. -/
theorem Sscanf_strict (ds : List Char) (u : Char) (hds : decimalUint16 ds)
    (hu : u ∈ unitLetters) : Sscanf (ds ++ [u]) = some (digitsValue ds, [u]) := by
  obtain ⟨hne, hdig, hval⟩ := hds
  have hu1 := unitLetter_not_space u hu
  have htake : (ds ++ [u]).takeWhile isDigit = ds := by
    rw [List.takeWhile_append_of_pos hdig]
    simp [List.takeWhile_cons, hu1.2.2]
  have hdrop : (ds ++ [u]).dropWhile isDigit = [u] := by
    rw [List.dropWhile_append_of_pos hdig]
    simp [List.dropWhile_cons, hu1.2.2]
  cases ds with
  | nil => exact absurd rfl hne
  | cons c cs =>
    have hskip : SkipSpace (c :: cs ++ [u]) = some (c :: cs ++ [u]) :=
      SkipSpace_digit c (cs ++ [u]) (hdig c (List.mem_cons_self _ _))
    have hscan : scanUint (c :: cs ++ [u]) = some (digitsValue (c :: cs), [u]) := by
      unfold scanUint
      rw [hskip]
      simp only [List.cons_append]
      rw [← List.cons_append, htake, hdrop]
      rw [if_neg (by simp), if_pos (by omega)]
    have hconv : convertString [u] = some [u] := by
      have hs : SkipSpace [u] = some [u] := by
        rw [SkipSpace_eq_some]
        exact ⟨[], rfl, by simp, by simpa using hu1.1⟩
      unfold convertString
      rw [hs]
      simp [List.takeWhile_cons, hu1.1]
    unfold Sscanf
    rw [hscan]
    simp only
    rw [hconv]

theorem unitFields_isSome (u : Char) (n : Nat) (hu : u ∈ unitLetters) :
    ∃ fields, unitFields [u] n = some fields := by
  rcases unitLetter_cases u hu with h | h | h | h <;> subst h <;> simp [unitFields]

theorem ParseUint_decimal (r : List Char) (h : decimalUint16 r) :
    ParseUint r = some (digitsValue r) := by
  obtain ⟨hne, hdig, hval⟩ := h
  unfold ParseUint
  rw [if_neg hne, if_pos (List.all_eq_true.mpr hdig), if_pos (by omega)]

theorem ParseUint_eq_some (r : List Char) (k : Nat) (h : ParseUint r = some k) :
    decimalUint16 r ∧ k = digitsValue r := by
  unfold ParseUint at h
  split at h
  · simp at h
  · rename_i hne
    split at h
    · rename_i hall
      split at h
      · rename_i hval
        simp only [Option.some.injEq] at h
        exact ⟨⟨hne, List.all_eq_true.mp hall, by omega⟩, h.symm⟩
      · simp at h
    · simp at h

/-! ## Lemmas on `parseToken` and `parseTokens` -/

theorem Split_colon (f r : List Char) (hf : ':' ∉ f) (hr : ':' ∉ r) :
    Split (f ++ ':' :: r) ':' = [f, r] := by
  have h : ([':'].intercalate [f, r]).splitOn ':' = [f, r] := List.splitOn_intercalate _ ':' (by
    intro l hl
    rcases List.mem_cons.mp hl with hl | hl
    · rw [hl]; exact hf
    · rw [List.mem_singleton.mp hl]; exact hr) (by simp)
  simpa [Split, List.intercalate] using h

theorem parseToken_ok (v f r u : List Char) (n k years months days : Nat)
    (hsplit : Split v ':' = [f, r]) (hscan : Sscanf f = some (n, u))
    (hunit : unitFields u n = some (years, months, days)) (hret : ParseUint r = some k) :
    parseToken v = .ok (rotation.mk (frequency.mk (String.mk f) years months days) k) := by
  unfold parseToken
  rw [hsplit]
  simp only
  rw [hscan]
  simp only
  rw [hunit]
  simp only
  rw [hret]

theorem parseToken_errColon (v : List Char) (h : (Split v ':').length ≠ 2) :
    parseToken v = .error errColon := by
  unfold parseToken
  split
  · rename_i f r hs
    rw [hs] at h
    simp at h
  · rfl

theorem parseToken_errRetention (v f r u : List Char) (n years months days : Nat)
    (hsplit : Split v ':' = [f, r]) (hscan : Sscanf f = some (n, u))
    (hunit : unitFields u n = some (years, months, days)) (hret : ParseUint r = none) :
    parseToken v = .error errRetention := by
  unfold parseToken
  rw [hsplit]
  simp only
  rw [hscan]
  simp only
  rw [hunit]
  simp only
  rw [hret]

theorem parseTokens_append (pre rest : List (List Char)) (rules acc : List rotation)
    (hpre : List.Forall₂ (fun t r => parseToken t = .ok r) pre rules) :
    parseTokens (pre ++ rest) acc = parseTokens rest (acc ++ rules) := by
  induction hpre generalizing acc with
  | nil => simp
  | cons h _ ih =>
    simp only [List.cons_append]
    rw [parseTokens, h]
    simp only
    rw [ih]
    simp

theorem parseSchedule_error_at (s : String) (pre post : List (List Char)) (v : List Char)
    (rules : List rotation) (err : String)
    (hsplit : Split s.toList ',' = pre ++ v :: post)
    (hpre : List.Forall₂ (fun t r => parseToken t = .ok r) pre rules)
    (hv : parseToken v = .error err) :
    parseSchedule s = (rules, some err) := by
  unfold parseSchedule
  rw [hsplit, parseTokens_append pre (v :: post) rules [] hpre, parseTokens, hv]
  simp

/-! ## The parser on well-formed schedules -/

/-- The rule `parseSchedule` builds from a well-formed token. -/
theorem parseToken_wellFormed (t : Token) (h : t.wellFormed) :
    ∃ years months days,
      unitFields [t.unit] (digitsValue t.interval) = some (years, months, days) ∧
      parseToken t.chars = .ok (rotation.mk
        (frequency.mk (String.mk t.frequencyString) years months days)
        (digitsValue t.retention)) := by
  obtain ⟨hint, hunit, hret⟩ := h
  obtain ⟨⟨years, months, days⟩, hfields⟩ := unitFields_isSome t.unit (digitsValue t.interval) hunit
  refine ⟨years, months, days, hfields, ?_⟩
  have hu := unitLetter_not_space t.unit hunit
  have hcolon : ∀ ds : List Char, (∀ c ∈ ds, isDigit c = true) → ':' ∉ ds := by
    intro ds hds hmem
    exact absurd (hds ':' hmem) (by decide)
  have hf : ':' ∉ t.frequencyString := by
    unfold Token.frequencyString
    rw [List.mem_append, List.mem_singleton]
    rintro (h | h)
    · exact hcolon _ hint.2.1 h
    · rcases unitLetter_cases t.unit hunit with h1 | h1 | h1 | h1 <;> rw [h1] at h <;>
        exact absurd h (by decide)
  exact parseToken_ok t.chars t.frequencyString t.retention [t.unit] (digitsValue t.interval)
    (digitsValue t.retention) years months days
    (Split_colon _ _ hf (hcolon _ hret.2.1)) (Sscanf_strict _ _ hint hunit) hfields
    (ParseUint_decimal _ hret)

theorem Token_chars_no_comma (t : Token) (h : t.wellFormed) : ',' ∉ t.chars := by
  obtain ⟨hint, hunit, hret⟩ := h
  have hdigit : ∀ ds : List Char, (∀ c ∈ ds, isDigit c = true) → ',' ∉ ds := by
    intro ds hds hmem
    exact absurd (hds ',' hmem) (by decide)
  unfold Token.chars Token.frequencyString
  simp only [List.mem_append, List.mem_cons, List.mem_singleton, List.not_mem_nil, or_false,
    not_or]
  refine ⟨⟨hdigit _ hint.2.1, ?_⟩, by decide, hdigit _ hret.2.1⟩
  intro h
  rcases unitLetter_cases t.unit hunit with h1 | h1 | h1 | h1 <;> rw [h1] at h <;>
    exact absurd h (by decide)

theorem parseTokens_wellFormed (ts : List Token) (hwf : ∀ t ∈ ts, t.wellFormed)
    (acc : List rotation) :
    (parseTokens (ts.map Token.chars) acc).2 = none ∧
    (parseTokens (ts.map Token.chars) acc).1.map (fun r => (r.frequency.label, r.retention)) =
      acc.map (fun r => (r.frequency.label, r.retention)) ++
        ts.map (fun t => (String.mk t.frequencyString, digitsValue t.retention)) := by
  induction ts generalizing acc with
  | nil => simp [parseTokens]
  | cons t ts ih =>
    obtain ⟨years, months, days, -, hok⟩ := parseToken_wellFormed t (hwf t (List.mem_cons_self _ _))
    have hrest := ih (fun x hx => hwf x (List.mem_cons_of_mem _ hx))
      (acc ++ [rotation.mk (frequency.mk (String.mk t.frequencyString) years months days)
        (digitsValue t.retention)])
    simp only [List.map_cons]
    rw [parseTokens, hok]
    simp only
    refine ⟨hrest.1, ?_⟩
    rw [hrest.2]
    simp

/-- C6: for a schedule string made of one or more tokens `<n><unit>:<r>` joined by commas, `n`
and `r` decimal integers of at most 65535 and the unit one of `d`, `w`, `m`, `y`,
`parseSchedule` returns no error and one rule per token, in input order, the label of each being
the text of the token before the colon and the retention the value of `r`; and
`"1d:7,1w:4,1m:12,1y:4"` gives the four rules `1d`, `1w`, `1m`, `1y` with retentions 7, 4, 12,
4. -/
theorem parseSchedule_wellFormed (ts : List Token) (hne : ts ≠ [])
    (hwf : ∀ t ∈ ts, t.wellFormed) :
    (parseSchedule (scheduleString ts)).2 = none ∧
    (parseSchedule (scheduleString ts)).1.map (fun r => (r.frequency.label, r.retention)) =
      ts.map (fun t => (String.mk t.frequencyString, digitsValue t.retention)) ∧
    parseSchedule "1d:7,1w:4,1m:12,1y:4" =
      ([rotation.mk (frequency.mk "1d" 0 0 1) 7, rotation.mk (frequency.mk "1w" 0 0 7) 4,
        rotation.mk (frequency.mk "1m" 0 1 0) 12, rotation.mk (frequency.mk "1y" 1 0 0) 4],
        none) := by
  have hsplit : Split (scheduleString ts).toList ',' = ts.map Token.chars := by
    unfold Split scheduleString
    apply List.splitOn_intercalate
    · intro l hl
      obtain ⟨t, ht, rfl⟩ := List.mem_map.mp hl
      exact Token_chars_no_comma t (hwf t ht)
    · simpa using hne
  have h := parseTokens_wellFormed ts hwf []
  unfold parseSchedule
  rw [hsplit]
  exact ⟨h.1, by simpa using h.2, by decide⟩

/-- C6 at a concrete input: the tokens `12w:3` and `12w:3` again; two rules come back. -/
theorem parseSchedule_wellFormed_witness :
    ([Token.mk ['1', '2'] 'w' ['3'], Token.mk ['1', '2'] 'w' ['3']] ≠ [] ∧
      scheduleString [Token.mk ['1', '2'] 'w' ['3'], Token.mk ['1', '2'] 'w' ['3']]
        = "12w:3,12w:3") ∧
    ((parseSchedule (scheduleString
        [Token.mk ['1', '2'] 'w' ['3'], Token.mk ['1', '2'] 'w' ['3']])).2 = none ∧
    (parseSchedule (scheduleString
        [Token.mk ['1', '2'] 'w' ['3'], Token.mk ['1', '2'] 'w' ['3']])).1.map
        (fun r => (r.frequency.label, r.retention)) =
      [Token.mk ['1', '2'] 'w' ['3'], Token.mk ['1', '2'] 'w' ['3']].map
        (fun t => (String.mk t.frequencyString, digitsValue t.retention)) ∧
    parseSchedule "1d:7,1w:4,1m:12,1y:4" =
      ([rotation.mk (frequency.mk "1d" 0 0 1) 7, rotation.mk (frequency.mk "1w" 0 0 7) 4,
        rotation.mk (frequency.mk "1m" 0 1 0) 12, rotation.mk (frequency.mk "1y" 1 0 0) 4],
        none)) :=
  ⟨⟨by simp, by decide⟩,
    parseSchedule_wellFormed [Token.mk ['1', '2'] 'w' ['3'], Token.mk ['1', '2'] 'w' ['3']]
      (by simp) (by
        intro t ht
        simp only [List.mem_cons, List.mem_singleton, List.not_mem_nil, or_false, or_self] at ht
        subst ht
        refine ⟨⟨by simp, by decide, by decide⟩, by decide, ⟨by simp, by decide, by decide⟩⟩)⟩

/-! ## Parse errors -/

/-- C7: when a comma-separated token of the schedule string does not split on the colon into
exactly two parts, and every token before it is valid, `parseSchedule` returns the error
"Colon delimiter not found", with the rules of the tokens before it. -/
theorem missing_colon_rejected (s : String) (pre post : List (List Char)) (v : List Char)
    (rules : List rotation)
    (hsplit : Split s.toList ',' = pre ++ v :: post)
    (hpre : List.Forall₂ (fun t r => parseToken t = .ok r) pre rules)
    (hv : (Split v ':').length ≠ 2) :
    parseSchedule s = (rules, some "Colon delimiter not found") :=
  parseSchedule_error_at s pre post v rules errColon hsplit hpre (parseToken_errColon v hv)

/-- C7 at concrete inputs: the empty token after a trailing comma in `"1d:7,"`, the empty schedule
string, a token without a colon and a token with two colons. -/
theorem missing_colon_rejected_witness :
    parseSchedule "1d:7," =
      ([rotation.mk (frequency.mk "1d" 0 0 1) 7], some "Colon delimiter not found") ∧
    parseSchedule "" = ([], some "Colon delimiter not found") ∧
    parseSchedule "1d" = ([], some "Colon delimiter not found") ∧
    parseSchedule "1d:7:2" = ([], some "Colon delimiter not found") :=
  ⟨missing_colon_rejected "1d:7," ["1d:7".toList] [] [] [rotation.mk (frequency.mk "1d" 0 0 1) 7]
      (by decide) (List.Forall₂.cons (by rfl) List.Forall₂.nil) (by decide),
    missing_colon_rejected "" [] [] [] [] (by decide) List.Forall₂.nil (by decide),
    missing_colon_rejected "1d" [] [] "1d".toList [] (by decide) List.Forall₂.nil (by decide),
    missing_colon_rejected "1d:7:2" [] [] "1d:7:2".toList [] (by decide) List.Forall₂.nil
      (by decide)⟩

/-! ## The frequency shape the scanner accepts -/

theorem unitFields_eq_some (u : List Char) (n : Nat) (fields : Nat × Nat × Nat)
    (h : unitFields u n = some fields) : ∃ c ∈ unitLetters, u = [c] := by
  unfold unitFields at h
  split at h
  · rename_i hu; exact ⟨'d', by decide, hu⟩
  · split at h
    · rename_i hu; exact ⟨'w', by decide, hu⟩
    · split at h
      · rename_i hu; exact ⟨'m', by decide, hu⟩
      · split at h
        · rename_i hu; exact ⟨'y', by decide, hu⟩
        · simp at h

theorem scanUint_eq_some (f rest : List Char) (n : Nat) (h : scanUint f = some (n, rest)) :
    ∃ sp ds, f = sp ++ (ds ++ rest) ∧ (∀ c ∈ sp, isSpace c = true ∧ c.toNat ≠ 10) ∧
      decimalUint16 ds ∧ n = digitsValue ds := by
  unfold scanUint at h
  cases hs : SkipSpace f with
  | none => rw [hs] at h; simp at h
  | some l =>
    rw [hs] at h
    cases l with
    | nil => simp at h
    | cons c cs =>
      simp only at h
      split at h
      · simp at h
      · rename_i hne
        split at h
        · rename_i hval
          simp only [Option.some.injEq, Prod.mk.injEq] at h
          obtain ⟨sp, hf, hsp, -⟩ := (SkipSpace_eq_some f (c :: cs)).mp hs
          refine ⟨sp, (c :: cs).takeWhile isDigit, ?_, hsp, ⟨hne, ?_, by omega⟩, h.1.symm⟩
          · rw [← h.2, List.takeWhile_append_dropWhile]
            exact hf
          · intro x hx
            exact List.mem_takeWhile_imp hx
        · simp at h

theorem scanUint_of_shape (sp ds rest : List Char)
    (hsp : ∀ c ∈ sp, isSpace c = true ∧ c.toNat ≠ 10) (hds : decimalUint16 ds)
    (hrest : ∀ c ∈ rest.head?, isDigit c = false) :
    scanUint (sp ++ (ds ++ rest)) = some (digitsValue ds, rest) := by
  obtain ⟨hne, hdig, hval⟩ := hds
  have hrest0 : rest.takeWhile isDigit = [] ∧ rest.dropWhile isDigit = rest := by
    cases rest with
    | nil => simp
    | cons x xs =>
      have hx : isDigit x = false := hrest x (by simp)
      simp [List.takeWhile_cons, List.dropWhile_cons, hx]
  have htake : (ds ++ rest).takeWhile isDigit = ds := by
    rw [List.takeWhile_append_of_pos hdig, hrest0.1, List.append_nil]
  have hdrop : (ds ++ rest).dropWhile isDigit = rest := by
    rw [List.dropWhile_append_of_pos hdig, hrest0.2]
  cases ds with
  | nil => exact absurd rfl hne
  | cons c cs =>
    have hskip : SkipSpace (sp ++ (c :: cs ++ rest)) = some (c :: (cs ++ rest)) := by
      rw [SkipSpace_eq_some]
      refine ⟨sp, rfl, hsp, ?_⟩
      simpa using (isDigit_not_space c (hdig c (List.mem_cons_self _ _))).1
    unfold scanUint
    rw [hskip]
    simp only
    rw [← List.cons_append, htake, hdrop, if_neg (by simp), if_pos (by omega)]

theorem convertString_eq_unit (rest : List Char) (u : Char)
    (h : convertString rest = some [u]) :
    ∃ sp tail, rest = sp ++ u :: tail ∧ (∀ c ∈ sp, isSpace c = true ∧ c.toNat ≠ 10) ∧
      (∀ c ∈ tail.head?, isSpace c = true) := by
  unfold convertString at h
  cases hs : SkipSpace rest with
  | none => rw [hs] at h; simp at h
  | some l =>
    rw [hs] at h
    cases l with
    | nil => simp at h
    | cons c cs =>
      simp only [Option.some.injEq] at h
      obtain ⟨sp, hf, hsp, hhead⟩ := (SkipSpace_eq_some rest (c :: cs)).mp hs
      have hc : isSpace c = false := hhead c (by simp)
      rw [List.takeWhile_cons] at h
      simp only [hc, Bool.not_false, if_true, List.cons.injEq] at h
      refine ⟨sp, cs, by rw [hf, h.1], hsp, ?_⟩
      intro x hx
      cases cs with
      | nil => simp at hx
      | cons y ys =>
        simp only [List.head?_cons, Option.mem_def, Option.some.injEq] at hx
        subst hx
        have h2 := h.2
        rw [List.takeWhile_cons] at h2
        cases hy : isSpace y with
        | true => rfl
        | false => simp [hy] at h2

theorem convertString_of_shape (sp tail : List Char) (u : Char)
    (hsp : ∀ c ∈ sp, isSpace c = true ∧ c.toNat ≠ 10) (hu : isSpace u = false)
    (htail : ∀ c ∈ tail.head?, isSpace c = true) :
    convertString (sp ++ u :: tail) = some [u] := by
  have hskip : SkipSpace (sp ++ u :: tail) = some (u :: tail) := by
    rw [SkipSpace_eq_some]
    exact ⟨sp, rfl, hsp, by simpa using hu⟩
  unfold convertString
  rw [hskip]
  simp only [Option.some.injEq]
  rw [List.takeWhile_cons]
  simp only [hu, Bool.not_false, if_true, List.cons.injEq, true_and]
  cases tail with
  | nil => rfl
  | cons y ys =>
    have hy : isSpace y = true := htail y (by simp)
    simp [List.takeWhile_cons, hy]

/-- The scanner and the `switch` accept exactly the lenient frequency shape. -/
theorem Sscanf_accepts_iff (f : List Char) :
    (∃ n u fields, Sscanf f = some (n, u) ∧ unitFields u n = some fields) ↔
      lenientFrequency f := by
  constructor
  · rintro ⟨n, u, fields, hscan, hunit⟩
    obtain ⟨c, hc, hu⟩ := unitFields_eq_some u n fields hunit
    subst hu
    unfold Sscanf at hscan
    cases h1 : scanUint f with
    | none => rw [h1] at hscan; simp at hscan
    | some p =>
      obtain ⟨m, rest⟩ := p
      rw [h1] at hscan
      simp only at hscan
      cases h2 : convertString rest with
      | none => rw [h2] at hscan; simp at hscan
      | some w =>
        rw [h2] at hscan
        simp only [Option.some.injEq, Prod.mk.injEq] at hscan
        rw [hscan.2] at h2
        obtain ⟨sp1, ds, hf, hsp1, hds, -⟩ := scanUint_eq_some f rest m h1
        obtain ⟨sp2, tail, hrest, hsp2, htail⟩ := convertString_eq_unit rest c h2
        exact ⟨sp1, ds, sp2, c, tail, by rw [hf, hrest], hsp1, hds, hsp2, hc, htail⟩
  · rintro ⟨sp1, ds, sp2, u, tail, hf, hsp1, hds, hsp2, hu, htail⟩
    have hu1 := unitLetter_not_space u hu
    have hhead : ∀ c ∈ (sp2 ++ u :: tail).head?, isDigit c = false := by
      intro c hc
      cases sp2 with
      | nil =>
        simp only [List.nil_append, List.head?_cons, Option.mem_def, Option.some.injEq] at hc
        rw [← hc]
        exact hu1.2.2
      | cons x xs =>
        simp only [List.cons_append, List.head?_cons, Option.mem_def, Option.some.injEq] at hc
        rw [← hc]
        exact space_not_digit x (hsp2 x (List.mem_cons_self _ _)).1
    obtain ⟨fields, hfields⟩ := unitFields_isSome u (digitsValue ds) hu
    refine ⟨digitsValue ds, [u], fields, ?_, hfields⟩
    unfold Sscanf
    rw [hf, scanUint_of_shape sp1 ds (sp2 ++ u :: tail) hsp1 hds hhead]
    simp only
    rw [convertString_of_shape sp2 tail u hsp2 hu1.1 htail]

theorem parseToken_errFrequency_iff (f r : List Char) (hf : ':' ∉ f) (hr : ':' ∉ r) :
    parseToken (f ++ ':' :: r) = .error errFrequency ↔ ¬ lenientFrequency f := by
  rw [← Sscanf_accepts_iff]
  have hsplit := Split_colon f r hf hr
  constructor
  · rintro h ⟨n, u, ⟨years, months, days⟩, hscan, hunit⟩
    cases hp : ParseUint r with
    | none =>
      rw [parseToken_errRetention _ f r u n years months days hsplit hscan hunit hp] at h
      simp only [Except.error.injEq] at h
      exact absurd h (by decide)
    | some k =>
      rw [parseToken_ok _ f r u n k years months days hsplit hscan hunit hp] at h
      simp at h
  · intro h
    unfold parseToken
    rw [hsplit]
    simp only
    cases hscan : Sscanf f with
    | none => rfl
    | some p =>
      obtain ⟨n, u⟩ := p
      simp only
      cases hunit : unitFields u n with
      | none => rfl
      | some fields => exact absurd ⟨n, u, fields, hscan, hunit⟩ h

/-- C8, on the code: in the token `1d x:7` the part before the colon is not a decimal integer
immediately followed by one unit letter, and yet `parseSchedule` accepts it, with the label
`1d x`: `%s` stops at the white space and what follows is never looked at. The `default` branch
of the `switch` does reject the same text without the space, `1dx:7`. Accepted as well are
` 1d:7`, `1 d:7` and `1d /..:7`, whose label, joined to the target, is the target itself. -/
theorem frequency_extra_text_accepted :
    strictFrequency "1d x".toList = false ∧
    parseSchedule "1d x:7" = ([rotation.mk (frequency.mk "1d x" 0 0 1) 7], none) ∧
    parseSchedule "1dx:7" =
      ([], some "Frequency must be an integer followed by 'd', 'w', 'm', or 'y'") ∧
    strictFrequency " 1d".toList = false ∧
    parseSchedule " 1d:7" = ([rotation.mk (frequency.mk " 1d" 0 0 1) 7], none) ∧
    strictFrequency "1 d".toList = false ∧
    parseSchedule "1 d:7" = ([rotation.mk (frequency.mk "1 d" 0 0 1) 7], none) ∧
    strictFrequency "1d /..".toList = false ∧
    parseSchedule "1d /..:7" = ([rotation.mk (frequency.mk "1d /.." 0 0 1) 7], none) ∧
    joinPath "1d /.." = some [] := by
  refine ⟨by decide, by decide, by decide, by decide, by decide, by decide, by decide,
    by decide, by decide, by decide⟩

/-- What the code rejects: a token with exactly one colon gets the error "Frequency must be an
integer followed by 'd', 'w', 'm', or 'y'" exactly when the part before the colon is not of the
form: optional white space without a newline, a decimal integer in `0..65535`, optional white
space without a newline, one of the unit letters `d`, `w`, `m`, `y`, and then the end of the
part or a white space character followed by any text. That is less than the error text
announces. When every token before it is valid, `parseSchedule` returns that error, with the
rules of the tokens before it. -/
theorem invalid_frequency_rejected (s : String) (pre post : List (List Char))
    (f r : List Char) (rules : List rotation)
    (hsplit : Split s.toList ',' = pre ++ (f ++ ':' :: r) :: post)
    (hpre : List.Forall₂ (fun t r => parseToken t = .ok r) pre rules)
    (hf : ':' ∉ f) (hr : ':' ∉ r) :
    (parseToken (f ++ ':' :: r) =
        .error "Frequency must be an integer followed by 'd', 'w', 'm', or 'y'" ↔
      ¬ lenientFrequency f) ∧
    (¬ lenientFrequency f →
      parseSchedule s =
        (rules, some "Frequency must be an integer followed by 'd', 'w', 'm', or 'y'")) :=
  ⟨parseToken_errFrequency_iff f r hf hr, fun h =>
    parseSchedule_error_at s pre post _ rules errFrequency hsplit hpre
      ((parseToken_errFrequency_iff f r hf hr).mpr h)⟩

/-- The rejection at a concrete input: the schedule `1d:7,zd:7`, whose second token has the
frequency `zd`. -/
theorem invalid_frequency_rejected_witness :
    (Split "1d:7,zd:7".toList ',' = ["1d:7".toList] ++ ("zd".toList ++ ':' :: "7".toList) :: [] ∧
      ':' ∉ "zd".toList ∧ ':' ∉ "7".toList) ∧
    ¬ lenientFrequency "zd".toList ∧
    parseSchedule "1d:7,zd:7" =
      ([rotation.mk (frequency.mk "1d" 0 0 1) 7],
        some "Frequency must be an integer followed by 'd', 'w', 'm', or 'y'") :=
  ⟨⟨by decide, by decide, by decide⟩,
    (invalid_frequency_rejected "1d:7,zd:7" ["1d:7".toList] [] "zd".toList "7".toList
      [rotation.mk (frequency.mk "1d" 0 0 1) 7] (by decide)
      (List.Forall₂.cons (by rfl) List.Forall₂.nil) (by decide) (by decide)).1.mp (by rfl),
    (invalid_frequency_rejected "1d:7,zd:7" ["1d:7".toList] [] "zd".toList "7".toList
      [rotation.mk (frequency.mk "1d" 0 0 1) 7] (by decide)
      (List.Forall₂.cons (by rfl) List.Forall₂.nil) (by decide) (by decide)).2
      ((invalid_frequency_rejected "1d:7,zd:7" ["1d:7".toList] [] "zd".toList "7".toList
        [rotation.mk (frequency.mk "1d" 0 0 1) 7] (by decide)
        (List.Forall₂.cons (by rfl) List.Forall₂.nil) (by decide) (by decide)).1.mp (by rfl))⟩

/-! ## The retention of a token -/

theorem parseToken_retention_le (v : List Char) (rot : rotation) (h : parseToken v = .ok rot) :
    rot.retention ≤ 65535 := by
  unfold parseToken at h
  split at h
  · rename_i f r hs
    cases h1 : Sscanf f with
    | none => rw [h1] at h; simp at h
    | some p =>
      obtain ⟨n, u⟩ := p
      rw [h1] at h
      simp only at h
      cases h2 : unitFields u n with
      | none => rw [h2] at h; simp at h
      | some fields =>
        obtain ⟨years, months, days⟩ := fields
        rw [h2] at h
        simp only at h
        cases h3 : ParseUint r with
        | none => rw [h3] at h; simp at h
        | some k =>
          rw [h3] at h
          simp only [Except.ok.injEq] at h
          rw [← h]
          obtain ⟨hdec, hk⟩ := ParseUint_eq_some r k h3
          simp only
          rw [hk]
          exact hdec.2.2
  · simp at h

theorem parseTokens_retention_le (ts : List (List Char)) (acc : List rotation)
    (hacc : ∀ rot ∈ acc, rot.retention ≤ 65535) :
    ∀ rot ∈ (parseTokens ts acc).1, rot.retention ≤ 65535 := by
  induction ts generalizing acc with
  | nil => simpa [parseTokens] using hacc
  | cons v vs ih =>
    rw [parseTokens]
    cases hv : parseToken v with
    | error err => simpa using hacc
    | ok rot =>
      simp only
      apply ih
      intro x hx
      rcases List.mem_append.mp hx with hx | hx
      · exact hacc x hx
      · rw [List.mem_singleton.mp hx]
        exact parseToken_retention_le v rot hv

/-- C9: for a token with exactly one colon and a frequency the parser accepts, `parseSchedule`
accepts the token exactly when the part after the colon is a non-empty string of decimal digits
whose value is at most 65535, and the retention of the rule is that value; otherwise, every token
before it being valid, it returns the error "Number of rotations to retain must be specified as
an integer". Every rule `parseSchedule` returns has a retention of at most 65535. -/
theorem invalid_retention_rejected (s : String) (pre post : List (List Char))
    (f r u : List Char) (n years months days : Nat) (rules : List rotation)
    (hsplit : Split s.toList ',' = pre ++ (f ++ ':' :: r) :: post)
    (hpre : List.Forall₂ (fun t r => parseToken t = .ok r) pre rules)
    (hf : ':' ∉ f) (hr : ':' ∉ r)
    (hscan : Sscanf f = some (n, u)) (hunit : unitFields u n = some (years, months, days)) :
    ((∃ rot, parseToken (f ++ ':' :: r) = .ok rot) ↔ decimalUint16 r) ∧
    (decimalUint16 r → parseToken (f ++ ':' :: r) =
      .ok (rotation.mk (frequency.mk (String.mk f) years months days) (digitsValue r))) ∧
    (¬ decimalUint16 r → parseSchedule s =
      (rules, some "Number of rotations to retain must be specified as an integer")) ∧
    (∀ s1 : String, ∀ rot ∈ (parseSchedule s1).1, rot.retention ≤ 65535) := by
  have hcolon := Split_colon f r hf hr
  have hok : decimalUint16 r → parseToken (f ++ ':' :: r) =
      .ok (rotation.mk (frequency.mk (String.mk f) years months days) (digitsValue r)) :=
    fun hdec => parseToken_ok _ f r u n (digitsValue r) years months days hcolon hscan hunit
      (ParseUint_decimal r hdec)
  have hbad : ¬ decimalUint16 r → parseToken (f ++ ':' :: r) = .error errRetention := by
    intro hdec
    cases hp : ParseUint r with
    | none => exact parseToken_errRetention _ f r u n years months days hcolon hscan hunit hp
    | some k => exact absurd (ParseUint_eq_some r k hp).1 hdec
  refine ⟨⟨?_, fun hdec => ⟨_, hok hdec⟩⟩, hok, ?_, ?_⟩
  · rintro ⟨rot, hrot⟩
    by_contra hdec
    rw [hbad hdec] at hrot
    simp at hrot
  · intro hdec
    exact parseSchedule_error_at s pre post _ rules errRetention hsplit hpre (hbad hdec)
  · intro s1 rot hrot
    exact parseTokens_retention_le _ [] (by simp) rot hrot

/-- C9 at a concrete input: the schedule `1d:7;2w;4`, a single token whose retention is
`7;2w;4`. -/
theorem invalid_retention_rejected_witness :
    (Split "1d:7;2w;4".toList ',' = [] ++ ("1d".toList ++ ':' :: "7;2w;4".toList) :: [] ∧
      Sscanf "1d".toList = some (1, ['d']) ∧ unitFields ['d'] 1 = some (0, 0, 1) ∧
      ¬ decimalUint16 "7;2w;4".toList) ∧
    parseSchedule "1d:7;2w;4" =
      ([], some "Number of rotations to retain must be specified as an integer") :=
  ⟨⟨by decide, by decide, by decide, fun h => absurd (h.2.1 ';' (by decide)) (by decide)⟩,
    (invalid_retention_rejected "1d:7;2w;4" [] [] "1d".toList "7;2w;4".toList ['d'] 1 0 0 1 []
      (by decide) List.Forall₂.nil (by decide) (by decide) (by decide) (by decide)).2.2.1
      (fun h => absurd (h.2.1 ';' (by decide)) (by decide))⟩

/-! ## Pruning that deletes nothing -/

theorem removeRotations_nil (files : List FileInfo) : removeRotations [] files = files := rfl

theorem copySource_prefix (source : PathKind) (curDir : String) (files copied : List FileInfo)
    (h : copySource source curDir files = .ok copied) :
    copied = files ∨ copied = files ++ [FileInfo.mk curDir true] := by
  rcases (copySource_eq_ok _ _ _ _ h).2 with h1 | h1
  · exact Or.inl h1.1
  · exact Or.inr h1.1

/-- When the pruning of an iteration deletes nothing, whichever way the due-check goes, the
listing the iteration leaves starts with the listing it found. -/
theorem rotateDir_prefix_of_no_delete (fmt : DateFormat) (now : Time) (source : PathKind)
    (r : rotation) (files : List FileInfo)
    (h : ∀ tNow, timeNow fmt now = some tNow →
      toDelete r (rotateNow tNow r (foundRotations fmt files)) (foundRotations fmt files) = []) :
    files <+: (rotateDir fmt now source r files).1 := by
  unfold rotateDir
  cases ht : timeNow fmt now with
  | none => exact List.prefix_refl _
  | some tNow =>
    have hdel := h tNow ht
    simp only
    by_cases hdue : rotateNow tNow r (foundRotations fmt files) = true
    · rw [if_pos hdue]
      rw [hdue] at hdel
      cases hc : copySource source (fmt.format tNow) files with
      | error err => exact List.prefix_refl _
      | ok copied =>
        simp only
        rw [hdel, removeRotations_nil]
        rcases copySource_prefix _ _ _ _ hc with hcp | hcp
        · rw [hcp]
        · rw [hcp]; exact List.prefix_append _ _
    · rw [if_neg hdue]
      have hf : rotateNow tNow r (foundRotations fmt files) = false := by
        simpa using hdue
      rw [hf] at hdel
      simp only
      rw [hdel, removeRotations_nil]

/-- C12: for a rule with retention 0, whatever the bucket holds and whether or not a snapshot is
taken, the slice `toDelete` is empty and every entry the bucket had is still there, in the same
order, when the iteration ends. -/
theorem retention_zero_deletes_nothing (fmt : DateFormat) (now : Time) (source : PathKind)
    (r : rotation) (files : List FileInfo) (h0 : r.retention = 0) :
    (∀ due found, toDelete r due found = []) ∧
    files <+: (rotateDir fmt now source r files).1 := by
  have hdel : ∀ due found, toDelete r due found = [] := by
    intro due found
    unfold toDelete
    rw [if_neg (by omega)]
  exact ⟨hdel, rotateDir_prefix_of_no_delete fmt now source r files (fun _ _ => hdel _ _)⟩

/-- C12 at a concrete input: the rule `1d:0` on a bucket holding the snapshots of 1, 2 and
3 January, the clock at 2020-01-10; the three are kept and the new one is added. -/
theorem retention_zero_deletes_nothing_witness :
    (rotation.mk (frequency.mk "1d" 0 0 1) 0).retention = 0 ∧
    rotateDir isoDate 1578614400000000000 PathKind.dir (rotation.mk (frequency.mk "1d" 0 0 1) 0)
        [FileInfo.mk "2020-01-01" true, FileInfo.mk "2020-01-02" true,
          FileInfo.mk "2020-01-03" true]
      = ([FileInfo.mk "2020-01-01" true, FileInfo.mk "2020-01-02" true,
          FileInfo.mk "2020-01-03" true, FileInfo.mk "2020-01-10" true], none) ∧
    [FileInfo.mk "2020-01-01" true, FileInfo.mk "2020-01-02" true,
        FileInfo.mk "2020-01-03" true] <+:
      (rotateDir isoDate 1578614400000000000 PathKind.dir
        (rotation.mk (frequency.mk "1d" 0 0 1) 0)
        [FileInfo.mk "2020-01-01" true, FileInfo.mk "2020-01-02" true,
          FileInfo.mk "2020-01-03" true]).1 :=
  ⟨rfl, by decide,
    (retention_zero_deletes_nothing isoDate 1578614400000000000 PathKind.dir
      (rotation.mk (frequency.mk "1d" 0 0 1) 0)
      [FileInfo.mk "2020-01-01" true, FileInfo.mk "2020-01-02" true,
        FileInfo.mk "2020-01-03" true] rfl).2⟩

theorem retainCount_eq (r : rotation) (due : Bool) (h1 : 0 < r.retention)
    (h2 : r.retention < 2 ^ 64) :
    retainCount r due = r.retention - (if due then 1 else 0) := by
  unfold retainCount
  cases due with
  | false => simp
  | true =>
    simp only [if_true]
    have h : r.retention + 2 ^ 64 - 1 = (r.retention - 1) + 2 ^ 64 := by omega
    rw [h, Nat.add_mod_right, Nat.mod_eq_of_lt (by omega)]

/-- C19: for a rule with retention `N > 0`, when the effective keep-count, `N` less 1 if a
snapshot was taken in this run, is at least the number of entries of the inventory, the slice
`toDelete` is empty, the removal loop leaves every listing as it is, and every entry the bucket
had is still there when the iteration ends. -/
theorem no_pruning_below_keep_count (fmt : DateFormat) (now : Time) (source : PathKind)
    (r : rotation) (files : List FileInfo) (hN : 0 < r.retention) (h64 : r.retention < 2 ^ 64) :
    (∀ due found, List.length found ≤ r.retention - (if due then 1 else 0) →
      toDelete r due found = [] ∧ ∀ l, removeRotations (toDelete r due found) l = l) ∧
    ((∀ tNow, timeNow fmt now = some tNow →
        (foundRotations fmt files).length ≤
          r.retention - (if rotateNow tNow r (foundRotations fmt files) then 1 else 0)) →
      files <+: (rotateDir fmt now source r files).1) := by
  have hdel : ∀ due found, List.length found ≤ r.retention - (if due then 1 else 0) →
      toDelete r due found = [] := by
    intro due found hk
    rw [← retainCount_eq r due hN h64] at hk
    unfold toDelete index
    rw [if_pos hN]
    split
    · exact List.drop_length _
    · exact List.drop_eq_nil_of_le hk
  refine ⟨fun due found hk => ⟨hdel due found hk, fun l => ?_⟩, fun hk => ?_⟩
  · rw [hdel due found hk, removeRotations_nil]
  · exact rotateDir_prefix_of_no_delete fmt now source r files
      (fun tNow ht => hdel _ _ (hk tNow ht))

/-- C19 at a concrete input: the rule `1d:7` on a bucket holding the snapshot of 9 January, the
clock at 2020-01-10: a snapshot is taken, the keep-count is 6, and nothing is deleted. -/
theorem no_pruning_below_keep_count_witness :
    (0 < (rotation.mk (frequency.mk "1d" 0 0 1) 7).retention ∧
      (rotation.mk (frequency.mk "1d" 0 0 1) 7).retention < 2 ^ 64 ∧
      rotateNow 1578614400000000000 (rotation.mk (frequency.mk "1d" 0 0 1) 7)
        (foundRotations isoDate [FileInfo.mk "2020-01-09" true]) = true ∧
      (foundRotations isoDate [FileInfo.mk "2020-01-09" true]).length ≤ 7 - 1) ∧
    [FileInfo.mk "2020-01-09" true] <+:
      (rotateDir isoDate 1578614400000000000 PathKind.dir
        (rotation.mk (frequency.mk "1d" 0 0 1) 7) [FileInfo.mk "2020-01-09" true]).1 :=
  ⟨⟨by decide, by decide, by decide, by decide⟩,
    (no_pruning_below_keep_count isoDate 1578614400000000000 PathKind.dir
      (rotation.mk (frequency.mk "1d" 0 0 1) 7) [FileInfo.mk "2020-01-09" true]
      (by decide) (by decide)).2 (by
        intro tNow ht
        have h1 : timeNow isoDate 1578614400000000000 = some 1578614400000000000 := by decide
        rw [h1] at ht
        simp only [Option.some.injEq] at ht
        subst ht
        decide)⟩

/-- C20: for a retention from 1 to 65535, any inventory and either value of the due flag, the
`uint64` decrement of `retainCount` does not wrap (its result is the retention less 1 as an
integer, and not negative), and `index` is at most the length of the inventory, so that
`foundRotations[index:]` is in range and is the slice `toDelete`. -/
theorem pruning_arithmetic_safe (r : rotation) (due : Bool) (found : lastRotations)
    (h1 : 1 ≤ r.retention) (h2 : r.retention ≤ 65535) :
    (retainCount r due : Int) = (r.retention : Int) - (if due then 1 else 0) ∧
    retainCount r due < 2 ^ 64 ∧
    index r due found ≤ found.length ∧
    toDelete r due found = found.drop (index r due found) := by
  have hrc := retainCount_eq r due (by omega) (by omega)
  refine ⟨?_, ?_, ?_, ?_⟩
  · rw [hrc]
    cases due with
    | false => simp
    | true =>
      simp only [if_true]
      omega
  · rw [hrc]
    omega
  · unfold index
    split <;> omega
  · unfold toDelete
    rw [if_pos (by omega)]

/-- C20 at a concrete input: retention 1, a snapshot taken, an inventory of two entries: the
keep-count is 0 and the index 0. -/
theorem pruning_arithmetic_safe_witness :
    (1 ≤ (rotation.mk (frequency.mk "1d" 0 0 1) 1).retention ∧
      (rotation.mk (frequency.mk "1d" 0 0 1) 1).retention ≤ 65535) ∧
    retainCount (rotation.mk (frequency.mk "1d" 0 0 1) 1) true = 0 ∧
    index (rotation.mk (frequency.mk "1d" 0 0 1) 1) true
        (foundRotations isoDate [FileInfo.mk "2020-01-08" true, FileInfo.mk "2020-01-09" true])
      ≤ (foundRotations isoDate
        [FileInfo.mk "2020-01-08" true, FileInfo.mk "2020-01-09" true]).length :=
  ⟨⟨by decide, by decide⟩, by decide,
    (pruning_arithmetic_safe (rotation.mk (frequency.mk "1d" 0 0 1) 1) true
      (foundRotations isoDate [FileInfo.mk "2020-01-08" true, FileInfo.mk "2020-01-09" true])
      (by decide) (by decide)).2.2.1⟩

/-! ## The first snapshot of a bucket -/

theorem foundRotations_eq_nil (fmt : DateFormat) (files : List FileInfo)
    (h : scanDir fmt files = []) : foundRotations fmt files = [] := by
  unfold foundRotations
  rw [h]
  rfl

/-- C11, as stated, fails on the code: the bucket holds one entry, a regular file named
`2020-01-10`, so its inventory is empty and the due-check is true; with the clock at 2020-01-10
and a directory as source, `shutil.CopyTree` finds the destination taken, `rotate` returns its
error and no snapshot is created; with a file as source the file is written over and no
directory is created either. -/
theorem first_run_copy_refused :
    scanDir isoDate [FileInfo.mk "2020-01-10" false] = [] ∧
    rotateNow 1578614400000000000 (rotation.mk (frequency.mk "1d" 0 0 1) 7)
      (foundRotations isoDate [FileInfo.mk "2020-01-10" false]) = true ∧
    rotateDir isoDate 1578614400000000000 PathKind.dir
        (rotation.mk (frequency.mk "1d" 0 0 1) 7) [FileInfo.mk "2020-01-10" false]
      = ([FileInfo.mk "2020-01-10" false], some (Error.copy "2020-01-10")) ∧
    rotateDir isoDate 1578614400000000000 PathKind.file
        (rotation.mk (frequency.mk "1d" 0 0 1) 7) [FileInfo.mk "2020-01-10" false]
      = ([FileInfo.mk "2020-01-10" false], none) := by
  refine ⟨by decide, by decide, by decide, by decide⟩

/-- A due iteration whose destination is a free file name: the copy is made, the pruning
follows, and the new directory is in the listing the iteration leaves. -/
theorem rotateDir_due_fresh (fmt : DateFormat) (now tNow : Time) (source : PathKind)
    (r : rotation) (files : List FileInfo)
    (hnow : timeNow fmt now = some tNow)
    (hdue : rotateNow tNow r (foundRotations fmt files) = true)
    (hsrc : source ≠ PathKind.missing)
    (hname : isName (fmt.format tNow) = true)
    (hfree : ∀ f ∈ files, f.name ≠ fmt.format tNow) :
    rotateDir fmt now source r files =
      (removeRotations (toDelete r true (foundRotations fmt files))
        (files ++ [FileInfo.mk (fmt.format tNow) true]), none) ∧
    FileInfo.mk (fmt.format tNow) true ∈
      removeRotations (toDelete r true (foundRotations fmt files))
        (files ++ [FileInfo.mk (fmt.format tNow) true]) := by
  constructor
  · unfold rotateDir
    rw [hnow]
    simp only
    rw [if_pos hdue, copySource_fresh source (fmt.format tNow) files hsrc hname hfree]
  · rw [removeRotations_eq_filter, List.mem_filter]
    refine ⟨by simp, ?_⟩
    simp only [decide_eq_true_eq, List.mem_map, not_exists, not_and]
    intro d hd hdn
    have hdf := toDelete_subset r true _ d hd
    rw [mem_foundRotations, mem_scanDir] at hdf
    exact hfree d.fileInfo hdf.1 hdn

/-- C11, amended: for every rule and every current time, if the inventory of the bucket is empty
then the due-check is true; and if moreover the current time formatted with the date format is a
file name (it has no path separator) that no entry of the bucket carries, then `rotate` ends the
iteration without error and the bucket holds what it held and the new directory of that name.
The source exists, as `rotate` has checked, and the date format reads the formatted current time
back. -/
theorem first_run_snapshots (fmt : DateFormat) (now : Time) (source : PathKind)
    (r : rotation) (files : List FileInfo)
    (hempty : scanDir fmt files = []) :
    (∀ t, rotateNow t r (foundRotations fmt files) = true) ∧
    (∀ tNow, timeNow fmt now = some tNow → source ≠ PathKind.missing →
      isName (fmt.format tNow) = true → (∀ f ∈ files, f.name ≠ fmt.format tNow) →
      rotateDir fmt now source r files =
        (files ++ [FileInfo.mk (fmt.format tNow) true], none)) := by
  have hfound := foundRotations_eq_nil fmt files hempty
  have hdue : ∀ t, rotateNow t r (foundRotations fmt files) = true := by
    intro t
    rw [hfound]
    rfl
  refine ⟨hdue, ?_⟩
  intro tNow hnow hsrc hname hfree
  have hdel : toDelete r true [] = [] := by
    unfold toDelete
    split <;> simp
  rw [(rotateDir_due_fresh fmt now tNow source r files hnow (hdue tNow) hsrc hname hfree).1,
    hfound, hdel, removeRotations_nil]

/-- C11, amended, at a concrete input: the rule `1y:4` on an empty bucket, the clock at
2020-01-10; and the whole of `rotate` on an empty target with the default schedule. -/
theorem first_run_snapshots_witness :
    (scanDir isoDate [] = [] ∧
      timeNow isoDate 1578614400000000000 = some 1578614400000000000 ∧
      isName (isoDate.format 1578614400000000000) = true) ∧
    rotateNow 1578614400000000000 (rotation.mk (frequency.mk "1y" 1 0 0) 4)
      (foundRotations isoDate []) = true ∧
    rotateDir isoDate 1578614400000000000 PathKind.dir
        (rotation.mk (frequency.mk "1y" 1 0 0) 4) []
      = ([] ++ [FileInfo.mk (isoDate.format 1578614400000000000) true], none) ∧
    rotate isoDate (fun _ => 1578614400000000000) (parseSchedule "1d:7,1w:4,1m:12,1y:4").1
        "foo" "bar" (FS.mk PathKind.dir PathKind.dir [])
      = (FS.mk PathKind.dir PathKind.dir
          [("1d", Child.dir [FileInfo.mk "2020-01-10" true]),
            ("1w", Child.dir [FileInfo.mk "2020-01-10" true]),
            ("1m", Child.dir [FileInfo.mk "2020-01-10" true]),
            ("1y", Child.dir [FileInfo.mk "2020-01-10" true])], none) :=
  ⟨⟨by decide, by decide, by decide⟩,
    (first_run_snapshots isoDate 1578614400000000000 PathKind.dir
      (rotation.mk (frequency.mk "1y" 1 0 0) 4) [] (by decide)).1 1578614400000000000,
    (first_run_snapshots isoDate 1578614400000000000 PathKind.dir
      (rotation.mk (frequency.mk "1y" 1 0 0) 4) [] (by decide)).2 1578614400000000000
      (by decide) (by decide) (by decide) (by simp),
    by decide⟩

/-! ## A bucket with a single snapshot -/

/-- C17, as stated, fails on the code: the bucket holds exactly one parsed snapshot, that of
1 January, and a regular file named `2020-01-10`; with the rule `1d:7`, the clock at 2020-01-10
and a directory as source the snapshot is before the cutoff of 9 January and the due-check is
true, but `shutil.CopyTree` finds the destination taken and `rotate` returns its error: no
snapshot is taken. So it is with the rule `0d:7` and a bucket that holds the snapshot of
10 January. -/
theorem single_snapshot_copy_refused :
    scanDir isoDate [FileInfo.mk "2020-01-01" true, FileInfo.mk "2020-01-10" false] =
      [lastRotation.mk (FileInfo.mk "2020-01-01" true) 1577836800000000000] ∧
    (1577836800000000000 : Time) ≤
      lastRotateTime 1578614400000000000 (rotation.mk (frequency.mk "1d" 0 0 1) 7) ∧
    rotateNow 1578614400000000000 (rotation.mk (frequency.mk "1d" 0 0 1) 7)
      (foundRotations isoDate [FileInfo.mk "2020-01-01" true, FileInfo.mk "2020-01-10" false])
      = true ∧
    rotateDir isoDate 1578614400000000000 PathKind.dir
        (rotation.mk (frequency.mk "1d" 0 0 1) 7)
        [FileInfo.mk "2020-01-01" true, FileInfo.mk "2020-01-10" false]
      = ([FileInfo.mk "2020-01-01" true, FileInfo.mk "2020-01-10" false],
          some (Error.copy "2020-01-10")) ∧
    rotateDir isoDate 1578614400000000000 PathKind.dir
        (rotation.mk (frequency.mk "0d" 0 0 0) 7) [FileInfo.mk "2020-01-10" true]
      = ([FileInfo.mk "2020-01-10" true], some (Error.copy "2020-01-10")) := by
  refine ⟨by decide, by decide, by decide, by decide, by decide⟩

/-- C17, amended: for every rule and every bucket with exactly one parsed snapshot, of time `t`,
the due-check of `rotate` is true exactly when `t` is at or before the current time minus the
frequency. When `t` is after that cutoff the iteration ends without error and leaves the listing
of the bucket as it was: no copy is made and the snapshot is kept. When `t` is at or before the
cutoff and the formatted current time is a file name that no entry of the bucket carries, the
copy is made, the pruning follows, the iteration ends without error and the new directory is in
the bucket. The source exists, as `rotate` has checked. -/
theorem single_snapshot (fmt : DateFormat) (now tNow : Time) (source : PathKind)
    (r : rotation) (files : List FileInfo) (x : lastRotation)
    (hnow : timeNow fmt now = some tNow)
    (hone : scanDir fmt files = [x]) :
    (rotateNow tNow r (foundRotations fmt files) = true ↔
      x.rotatedTime ≤ lastRotateTime tNow r) ∧
    (lastRotateTime tNow r < x.rotatedTime →
      rotateDir fmt now source r files = (files, none)) ∧
    (x.rotatedTime ≤ lastRotateTime tNow r → source ≠ PathKind.missing →
      isName (fmt.format tNow) = true → (∀ f ∈ files, f.name ≠ fmt.format tNow) →
      rotateDir fmt now source r files =
        (removeRotations (toDelete r true [x])
          (files ++ [FileInfo.mk (fmt.format tNow) true]), none) ∧
      FileInfo.mk (fmt.format tNow) true ∈
        removeRotations (toDelete r true [x])
          (files ++ [FileInfo.mk (fmt.format tNow) true])) := by
  have hfound : foundRotations fmt files = [x] := by
    unfold foundRotations
    rw [hone]
    simp [sortRotations]
  have hiff : rotateNow tNow r (foundRotations fmt files) = true ↔
      x.rotatedTime ≤ lastRotateTime tNow r := by
    rw [hfound]
    unfold rotateNow
    simp only [Bool.or_eq_true, decide_eq_true_eq]
    exact le_iff_lt_or_eq.symm
  refine ⟨hiff, fun hlt => ?_, fun hle hsrc hname hfree => ?_⟩
  · have hnot : ¬ rotateNow tNow r (foundRotations fmt files) = true :=
      fun h => absurd (hiff.mp h) (not_le_of_lt hlt)
    have hdel : toDelete r false [x] = [] := by
      unfold toDelete index retainCount
      simp only [Bool.false_eq_true, if_false, List.length_singleton]
      split
      · split
        · rfl
        · rename_i hpos hgt
          have : r.retention = 1 := by omega
          rw [this]
          rfl
      · rfl
    unfold rotateDir
    rw [hnow]
    simp only
    rw [if_neg hnot, hfound, hdel, removeRotations_nil]
  · have h := rotateDir_due_fresh fmt now tNow source r files hnow (hiff.mpr hle) hsrc hname
      hfree
    rw [hfound] at h
    exact h

/-- C17, amended, at concrete inputs, the clock at 2020-01-10: the rule `2y:10` with a snapshot
one year old and the rule `3m:10` with a snapshot one month old are not due and keep their
bucket; the rule `1m:10` with a snapshot two months old is due and the snapshot of 10 January is
added. -/
theorem single_snapshot_witness :
    (timeNow isoDate 1578614400000000000 = some 1578614400000000000 ∧
      scanDir isoDate [FileInfo.mk "2019-01-10" true] =
        [lastRotation.mk (FileInfo.mk "2019-01-10" true) 1547078400000000000] ∧
      lastRotateTime 1578614400000000000 (rotation.mk (frequency.mk "2y" 2 0 0) 10) <
        1547078400000000000) ∧
    rotateDir isoDate 1578614400000000000 PathKind.file
        (rotation.mk (frequency.mk "2y" 2 0 0) 10) [FileInfo.mk "2019-01-10" true]
      = ([FileInfo.mk "2019-01-10" true], none) ∧
    rotateDir isoDate 1578614400000000000 PathKind.file
        (rotation.mk (frequency.mk "3m" 0 3 0) 10) [FileInfo.mk "2019-12-10" true]
      = ([FileInfo.mk "2019-12-10" true], none) ∧
    rotateDir isoDate 1578614400000000000 PathKind.file
        (rotation.mk (frequency.mk "1m" 0 1 0) 10) [FileInfo.mk "2019-11-10" true]
      = ([FileInfo.mk "2019-11-10" true, FileInfo.mk "2020-01-10" true], none) ∧
    FileInfo.mk (isoDate.format 1578614400000000000) true ∈
      removeRotations (toDelete (rotation.mk (frequency.mk "1m" 0 1 0) 10) true
          [lastRotation.mk (FileInfo.mk "2019-11-10" true) 1573344000000000000])
        ([FileInfo.mk "2019-11-10" true] ++
          [FileInfo.mk (isoDate.format 1578614400000000000) true]) :=
  ⟨⟨by decide, by decide, by decide⟩,
    (single_snapshot isoDate 1578614400000000000 1578614400000000000 PathKind.file
      (rotation.mk (frequency.mk "2y" 2 0 0) 10) [FileInfo.mk "2019-01-10" true]
      (lastRotation.mk (FileInfo.mk "2019-01-10" true) 1547078400000000000)
      (by decide) (by decide)).2.1 (by decide),
    by decide, by decide,
    ((single_snapshot isoDate 1578614400000000000 1578614400000000000 PathKind.file
      (rotation.mk (frequency.mk "1m" 0 1 0) 10) [FileInfo.mk "2019-11-10" true]
      (lastRotation.mk (FileInfo.mk "2019-11-10" true) 1573344000000000000)
      (by decide) (by decide)).2.2 (by decide) (by decide) (by decide) (by decide)).2⟩

/-! ## The snapshot of the run and the pruning of the run -/

theorem copySource_has_curDir (source : PathKind) (curDir : String)
    (files copied : List FileInfo) (h : copySource source curDir files = .ok copied) :
    ∃ f ∈ copied, f.name = curDir := by
  rcases (copySource_eq_ok _ _ _ _ h).2 with ⟨h1, f, hf, hn⟩ | ⟨h1, -⟩
  · rw [h1]
    exact ⟨f, hf, hn⟩
  · rw [h1]
    exact ⟨FileInfo.mk curDir true, by simp, rfl⟩

/-- C18, as stated, fails on the code: the parser accepts the rule `0d:1`; with the clock at
2020-01-10, a file as source and a bucket that already holds the snapshot `2020-01-10`, the
due-check is true, the file is copied into that directory, the iteration ends without error, and
the pruning, whose keep-count is 0, removes the directory: the bucket is left empty. -/
theorem new_snapshot_pruned :
    parseSchedule "0d:1" = ([rotation.mk (frequency.mk "0d" 0 0 0) 1], none) ∧
    rotateNow 1578614400000000000 (rotation.mk (frequency.mk "0d" 0 0 0) 1)
      (foundRotations isoDate [FileInfo.mk "2020-01-10" true]) = true ∧
    isoDate.format 1578614400000000000 = "2020-01-10" ∧
    rotateDir isoDate 1578614400000000000 PathKind.file
        (rotation.mk (frequency.mk "0d" 0 0 0) 1) [FileInfo.mk "2020-01-10" true]
      = ([], none) := by
  refine ⟨by decide, by decide, by decide, by decide⟩

/-- C18, amended: for every rule and every bucket whose inventory holds no snapshot named by the
current formatted time before the run, if `rotate` takes a snapshot while processing the bucket
and ends the iteration without error, then an entry of that name is in the bucket after the
pruning. -/
theorem new_snapshot_survives (fmt : DateFormat) (now tNow : Time) (source : PathKind)
    (r : rotation) (files files1 : List FileInfo)
    (hnow : timeNow fmt now = some tNow)
    (hdue : rotateNow tNow r (foundRotations fmt files) = true)
    (hrun : rotateDir fmt now source r files = (files1, none))
    (hnew : ∀ x ∈ scanDir fmt files, x.fileInfo.name ≠ fmt.format tNow) :
    ∃ f ∈ files1, f.name = fmt.format tNow := by
  unfold rotateDir at hrun
  rw [hnow] at hrun
  simp only at hrun
  rw [if_pos hdue] at hrun
  cases hc : copySource source (fmt.format tNow) files with
  | error err => rw [hc] at hrun; simp at hrun
  | ok copied =>
    rw [hc] at hrun
    simp only [Prod.mk.injEq, and_true] at hrun
    obtain ⟨f, hf, hname⟩ := copySource_has_curDir _ _ _ _ hc
    refine ⟨f, ?_, hname⟩
    rw [← hrun, removeRotations_eq_filter, List.mem_filter]
    refine ⟨hf, ?_⟩
    simp only [decide_eq_true_eq, List.mem_map, not_exists, not_and]
    intro d hd hdn
    have hdf := toDelete_subset r true _ d hd
    rw [mem_foundRotations] at hdf
    exact hnew d hdf (by rw [hdn, hname])

/-- C18, amended, at a concrete input: the rule `1d:1` on a bucket holding the snapshots of 8 and
9 January, the clock at 2020-01-10: both are pruned and the snapshot of 10 January stays. -/
theorem new_snapshot_survives_witness :
    (timeNow isoDate 1578614400000000000 = some 1578614400000000000 ∧
      rotateNow 1578614400000000000 (rotation.mk (frequency.mk "1d" 0 0 1) 1)
        (foundRotations isoDate [FileInfo.mk "2020-01-08" true, FileInfo.mk "2020-01-09" true])
        = true ∧
      rotateDir isoDate 1578614400000000000 PathKind.file
          (rotation.mk (frequency.mk "1d" 0 0 1) 1)
          [FileInfo.mk "2020-01-08" true, FileInfo.mk "2020-01-09" true]
        = ([FileInfo.mk "2020-01-10" true], none)) ∧
    ∃ f ∈ [FileInfo.mk "2020-01-10" true], f.name = isoDate.format 1578614400000000000 :=
  ⟨⟨by decide, by decide, by decide⟩,
    new_snapshot_survives isoDate 1578614400000000000 1578614400000000000 PathKind.file
      (rotation.mk (frequency.mk "1d" 0 0 1) 1)
      [FileInfo.mk "2020-01-08" true, FileInfo.mk "2020-01-09" true]
      [FileInfo.mk "2020-01-10" true] (by decide) (by decide) (by decide) (by decide)⟩

/-! ## The fields of a parsed frequency -/

/-- C13, on the code: `parseSchedule` accepts `9363w:1` and returns a rule whose `days` field is
5, not `7 * 9363 = 65541`: the product of line 61 is a `uint16` and wraps at 65536. So does
`65535w:1`, with 65529 days. -/
theorem weeks_product_wraps :
    parseSchedule "9363w:1" = ([rotation.mk (frequency.mk "9363w" 0 0 5) 1], none) ∧
    7 * digitsValue "9363".toList = 65541 ∧
    parseSchedule "65535w:1" = ([rotation.mk (frequency.mk "65535w" 0 0 65529) 1], none) ∧
    7 * digitsValue "65535".toList = 458745 := by
  refine ⟨by decide, by decide, by decide, by decide⟩

theorem Split_scheduleString_single (t : Token) (h : t.wellFormed) :
    Split (scheduleString [t]).toList ',' = [t.chars] := by
  unfold Split scheduleString
  apply List.splitOn_intercalate
  · intro l hl
    simp only [List.map_cons, List.map_nil, List.mem_singleton] at hl
    rw [hl]
    exact Token_chars_no_comma t h
  · simp

theorem parseSchedule_single (t : Token) (h : t.wellFormed) (years months days : Nat)
    (hfields : unitFields [t.unit] (digitsValue t.interval) = some (years, months, days)) :
    parseSchedule (scheduleString [t]) =
      ([rotation.mk (frequency.mk (String.mk t.frequencyString) years months days)
        (digitsValue t.retention)], none) := by
  obtain ⟨y, m, d, hf, hok⟩ := parseToken_wellFormed t h
  rw [hfields] at hf
  simp only [Option.some.injEq, Prod.mk.injEq] at hf
  obtain ⟨hy, hm, hd⟩ := hf
  subst hy hm hd
  unfold parseSchedule
  rw [Split_scheduleString_single t h, parseTokens, hok]
  rfl

/-- C14: for every interval `n` and retention `r` written as decimal integers of at most 65535,
`parseSchedule` of `<n>d:<r>` returns the one rule with `days = n`, of `<n>m:<r>` the one rule
with `months = n`, and of `<n>y:<r>` the one rule with `years = n`; the other two fields are 0,
the label is the text before the colon and the retention is `r`. -/
theorem unit_selects_field (ds rs : List Char) (hds : decimalUint16 ds)
    (hrs : decimalUint16 rs) :
    parseSchedule (scheduleString [Token.mk ds 'd' rs]) =
      ([rotation.mk (frequency.mk (String.mk (ds ++ ['d'])) 0 0 (digitsValue ds))
        (digitsValue rs)], none) ∧
    parseSchedule (scheduleString [Token.mk ds 'm' rs]) =
      ([rotation.mk (frequency.mk (String.mk (ds ++ ['m'])) 0 (digitsValue ds) 0)
        (digitsValue rs)], none) ∧
    parseSchedule (scheduleString [Token.mk ds 'y' rs]) =
      ([rotation.mk (frequency.mk (String.mk (ds ++ ['y'])) (digitsValue ds) 0 0)
        (digitsValue rs)], none) := by
  refine ⟨?_, ?_, ?_⟩
  · exact parseSchedule_single (Token.mk ds 'd' rs)
      ⟨hds, (show 'd' ∈ unitLetters by decide), hrs⟩ 0 0 (digitsValue ds)
      (by simp [unitFields])
  · exact parseSchedule_single (Token.mk ds 'm' rs)
      ⟨hds, (show 'm' ∈ unitLetters by decide), hrs⟩ 0 (digitsValue ds) 0
      (by simp [unitFields])
  · exact parseSchedule_single (Token.mk ds 'y' rs)
      ⟨hds, (show 'y' ∈ unitLetters by decide), hrs⟩ (digitsValue ds) 0 0
      (by simp [unitFields])

/-- C14 at a concrete input: the interval `65535` and the retention `12`. -/
theorem unit_selects_field_witness :
    (decimalUint16 "65535".toList ∧ decimalUint16 "12".toList) ∧
    parseSchedule "65535d:12" = ([rotation.mk (frequency.mk "65535d" 0 0 65535) 12], none) ∧
    parseSchedule "65535m:12" = ([rotation.mk (frequency.mk "65535m" 0 65535 0) 12], none) ∧
    parseSchedule "65535y:12" = ([rotation.mk (frequency.mk "65535y" 65535 0 0) 12], none) :=
  ⟨⟨⟨by decide, by decide, by decide⟩, ⟨by decide, by decide, by decide⟩⟩,
    unit_selects_field "65535".toList "12".toList ⟨by decide, by decide, by decide⟩
      ⟨by decide, by decide, by decide⟩⟩

theorem parseToken_eq_ok (v : List Char) (rot : rotation) (h : parseToken v = .ok rot) :
    ∃ f r u n years months days k, Split v ':' = [f, r] ∧ Sscanf f = some (n, u) ∧
      unitFields u n = some (years, months, days) ∧ ParseUint r = some k ∧
      rot = rotation.mk (frequency.mk (String.mk f) years months days) k := by
  unfold parseToken at h
  split at h
  · rename_i f r hs
    cases h1 : Sscanf f with
    | none => rw [h1] at h; simp at h
    | some p =>
      obtain ⟨n, u⟩ := p
      rw [h1] at h
      simp only at h
      cases h2 : unitFields u n with
      | none => rw [h2] at h; simp at h
      | some fields =>
        obtain ⟨years, months, days⟩ := fields
        rw [h2] at h
        simp only at h
        cases h3 : ParseUint r with
        | none => rw [h3] at h; simp at h
        | some k =>
          rw [h3] at h
          simp only [Except.ok.injEq] at h
          exact ⟨f, r, u, n, years, months, days, k, hs, h1, h2, h3, h.symm⟩
  · simp at h

theorem parseTokens_mem (ts : List (List Char)) (acc : List rotation) (rot : rotation)
    (h : rot ∈ (parseTokens ts acc).1) : rot ∈ acc ∨ ∃ v, parseToken v = .ok rot := by
  induction ts generalizing acc with
  | nil => left; simpa [parseTokens] using h
  | cons v vs ih =>
    rw [parseTokens] at h
    cases hv : parseToken v with
    | error err =>
      rw [hv] at h
      left
      simpa using h
    | ok r1 =>
      rw [hv] at h
      simp only at h
      rcases ih _ h with h1 | h1
      · rcases List.mem_append.mp h1 with h2 | h2
        · exact Or.inl h2
        · right
          rw [List.mem_singleton.mp h2]
          exact ⟨v, hv⟩
      · exact Or.inr h1

theorem Sscanf_interval_le (f u : List Char) (n : Nat) (h : Sscanf f = some (n, u)) :
    n ≤ 65535 := by
  unfold Sscanf at h
  cases h1 : scanUint f with
  | none => rw [h1] at h; simp at h
  | some p =>
    obtain ⟨m, rest⟩ := p
    rw [h1] at h
    simp only at h
    cases h2 : convertString rest with
    | none => rw [h2] at h; simp at h
    | some w =>
      rw [h2] at h
      simp only [Option.some.injEq, Prod.mk.injEq] at h
      obtain ⟨sp, ds, -, -, hds, hm⟩ := scanUint_eq_some f rest m h1
      rw [← h.1, hm]
      exact hds.2.2

theorem unitFields_nonZero (label : String) (u : List Char) (n years months days : Nat)
    (hn : n ≤ 65535) (h : unitFields u n = some (years, months, days)) :
    nonZeroFields (frequency.mk label years months days) ≤ 1 ∧
    (nonZeroFields (frequency.mk label years months days) = 1 ↔ n ≠ 0) := by
  unfold unitFields at h
  unfold nonZeroFields
  simp only
  split at h
  · simp only [Option.some.injEq, Prod.mk.injEq] at h
    obtain ⟨hy, hm, hd⟩ := h
    subst hy hm hd
    by_cases h0 : n = 0 <;> simp [h0]
  · split at h
    · simp only [Option.some.injEq, Prod.mk.injEq, daysPerWeek] at h
      obtain ⟨hy, hm, hd⟩ := h
      subst hy hm hd
      by_cases h0 : n = 0
      · simp [h0]
      · have hw : n * 7 % 65536 ≠ 0 := by omega
        simp [h0, hw]
    · split at h
      · simp only [Option.some.injEq, Prod.mk.injEq] at h
        obtain ⟨hy, hm, hd⟩ := h
        subst hy hm hd
        by_cases h0 : n = 0 <;> simp [h0]
      · split at h
        · simp only [Option.some.injEq, Prod.mk.injEq] at h
          obtain ⟨hy, hm, hd⟩ := h
          subst hy hm hd
          by_cases h0 : n = 0 <;> simp [h0]
        · simp at h

/-- C16, as stated, fails on the code: `parseSchedule` accepts `0d:7` and returns a rule whose
three fields are 0; so does it `0w:7`, `0m:7` and `0y:7`. -/
theorem zero_interval_no_field :
    parseSchedule "0d:7" = ([rotation.mk (frequency.mk "0d" 0 0 0) 7], none) ∧
    nonZeroFields (frequency.mk "0d" 0 0 0) = 0 ∧
    parseSchedule "0w:7,0m:7,0y:7" =
      ([rotation.mk (frequency.mk "0w" 0 0 0) 7, rotation.mk (frequency.mk "0m" 0 0 0) 7,
        rotation.mk (frequency.mk "0y" 0 0 0) 7], none) := by
  refine ⟨by decide, by decide, by decide⟩

/-- C16, amended: for every rule `parseSchedule` returns, at most one of the fields `years`,
`months` and `days` of the frequency is not zero, and exactly one is not zero if and only if the
interval written in the label is not 0. -/
theorem one_unit_field (s : String) (rot : rotation) (h : rot ∈ (parseSchedule s).1) :
    ∃ n u, Sscanf rot.frequency.label.toList = some (n, u) ∧
      nonZeroFields rot.frequency ≤ 1 ∧
      (nonZeroFields rot.frequency = 1 ↔ n ≠ 0) := by
  unfold parseSchedule at h
  rcases parseTokens_mem _ _ _ h with h1 | ⟨v, hv⟩
  · simp at h1
  · obtain ⟨f, r, u, n, years, months, days, k, -, hscan, hunit, -, hrot⟩ :=
      parseToken_eq_ok v rot hv
    subst hrot
    exact ⟨n, u, hscan, unitFields_nonZero (String.mk f) u n years months days
      (Sscanf_interval_le f u n hscan) hunit⟩

/-- C16, amended, at a concrete input: the rule `2w:3` of the schedule `1d:7,2w:3`. -/
theorem one_unit_field_witness :
    rotation.mk (frequency.mk "2w" 0 0 14) 3 ∈ (parseSchedule "1d:7,2w:3").1 ∧
    ∃ n u, Sscanf (rotation.mk (frequency.mk "2w" 0 0 14) 3).frequency.label.toList
        = some (n, u) ∧
      nonZeroFields (rotation.mk (frequency.mk "2w" 0 0 14) 3).frequency ≤ 1 ∧
      (nonZeroFields (rotation.mk (frequency.mk "2w" 0 0 14) 3).frequency = 1 ↔ n ≠ 0) :=
  ⟨by decide, one_unit_field "1d:7,2w:3" (rotation.mk (frequency.mk "2w" 0 0 14) 3) (by decide)⟩

/-! ## Rules with the same label and rules with different labels -/

theorem lookup_append_ne (L L1 : String) (x : Child) (c : List (String × Child))
    (h : L ≠ L1) : (c ++ [(L1, x)]).lookup L = c.lookup L := by
  induction c with
  | nil =>
    have hb : (L == L1) = false := by simpa using h
    simp [List.lookup, hb]
  | cons p ps ih =>
    obtain ⟨k, v⟩ := p
    simp only [List.cons_append, List.lookup]
    cases k == L <;> cases hk : L == k <;> simp [ih]

theorem lookup_Mkdir_ne (L L1 : String) (c : List (String × Child)) (h : L ≠ L1) :
    (Mkdir L1 c).lookup L = c.lookup L := by
  unfold Mkdir
  split
  · exact lookup_append_ne L L1 _ c h
  · rfl

theorem lookup_setListing_ne (L L1 : String) (files : List FileInfo)
    (c : List (String × Child)) (h : L ≠ L1) :
    (setListing L1 files c).lookup L = c.lookup L := by
  induction c with
  | nil => rfl
  | cons p ps ih =>
    obtain ⟨k, v⟩ := p
    unfold setListing
    by_cases hk : k = L1
    · rw [if_pos hk]
      have hb : (L == k) = false := by
        rw [hk]
        simpa using h
      simp [List.lookup, hb]
    · rw [if_neg hk]
      simp only [List.lookup]
      cases L == k
      · exact ih
      · rfl

theorem lookup_rotateRule_ne (fmt : DateFormat) (now : Time) (source : PathKind)
    (q : rotation) (c : List (String × Child)) (L : String)
    (h : joinPath q.frequency.label ≠ some [L]) :
    (rotateRule fmt now source q c).1.lookup L = c.lookup L := by
  unfold rotateRule
  split
  · rename_i name hq
    have hne : L ≠ name := by
      intro e
      rw [← e] at hq
      exact h hq
    split
    · simp only
      rw [lookup_setListing_ne L _ _ _ hne, lookup_Mkdir_ne L _ _ hne]
    · simp only
      rw [lookup_Mkdir_ne L _ _ hne]
  · split <;> rfl
  · rfl

theorem lookup_Mkdir_self (L : String) (c : List (String × Child)) :
    (Mkdir L c).lookup L = some ((c.lookup L).getD (Child.dir [])) := by
  unfold Mkdir
  cases hl : c.lookup L with
  | some x => simp [hl]
  | none =>
    simp only [Option.getD_none]
    induction c with
    | nil => simp [List.lookup]
    | cons p ps ih =>
      obtain ⟨k, v⟩ := p
      simp only [List.lookup] at hl
      simp only [List.cons_append, List.lookup]
      cases hk : L == k with
      | true => rw [hk] at hl; simp at hl
      | false =>
        rw [hk] at hl
        exact ih hl

theorem dueCheck_congr (fmt : DateFormat) (now : Time) (r : rotation)
    (c1 c : List (String × Child)) (L : String)
    (hr : joinPath r.frequency.label = some [L])
    (h : c1.lookup L = c.lookup L) :
    dueCheck fmt now r c1 = dueCheck fmt now r c := by
  unfold dueCheck
  rw [hr]
  simp only
  rw [lookup_Mkdir_self, lookup_Mkdir_self, h]

theorem rotateLoop_lookup (fmt : DateFormat) (clock : Nat → Time) (source : PathKind)
    (L : String) (pre : List rotation)
    (hpre : ∀ q ∈ pre, joinPath q.frequency.label ≠ some [L]) (i : Nat)
    (c : List (String × Child)) :
    (rotateLoop fmt clock source i pre c).1.lookup L = c.lookup L := by
  induction pre generalizing i c with
  | nil => rfl
  | cons q qs ih =>
    have hq := lookup_rotateRule_ne fmt (clock i) source q c L (hpre q (List.mem_cons_self _ _))
    rw [rotateLoop]
    cases hr : rotateRule fmt (clock i) source q c with
    | mk c1 err =>
      rw [hr] at hq
      cases err with
      | some e => exact hq
      | none =>
        simp only
        rw [ih (fun x hx => hpre x (List.mem_cons_of_mem _ hx)) (i + 1) c1]
        exact hq

theorem rotateLoop_append (fmt : DateFormat) (clock : Nat → Time) (source : PathKind)
    (pre rest : List rotation) (i : Nat) (c c1 : List (String × Child))
    (h : rotateLoop fmt clock source i pre c = (c1, none)) :
    rotateLoop fmt clock source i (pre ++ rest) c =
      rotateLoop fmt clock source (i + pre.length) rest c1 := by
  induction pre generalizing i c with
  | nil =>
    simp only [rotateLoop, Prod.mk.injEq, and_true] at h
    rw [h]
    rfl
  | cons q qs ih =>
    rw [rotateLoop] at h
    simp only [List.cons_append]
    rw [rotateLoop]
    cases hr : rotateRule fmt (clock i) source q c with
    | mk c2 err =>
      rw [hr] at h
      cases err with
      | some e => simp at h
      | none =>
        simp only at h
        simp only
        rw [ih (i + 1) c2 h, List.length_cons]
        congr 1
        omega

/-- C15, as stated, fails on the code: for the schedule `1d:7,1d:7`, an empty target and the
clock at 2020-01-10, the first rule takes the snapshot of 10 January in the bucket `1d`; the
second rule, which has the same label and so the same bucket, finds it and its due-check is
false, whereas alone on the empty target its due-check is true. The whole run leaves one
snapshot. So it is for the schedule `1d:7,1d /../1d:7`, whose second label is cleaned by
`filepath.Join` to the same bucket directory. -/
theorem same_label_shares_bucket :
    parseSchedule "1d:7,1d:7" =
      ([rotation.mk (frequency.mk "1d" 0 0 1) 7, rotation.mk (frequency.mk "1d" 0 0 1) 7],
        none) ∧
    rotateLoop isoDate (fun _ => 1578614400000000000) PathKind.dir 0
        [rotation.mk (frequency.mk "1d" 0 0 1) 7] []
      = ([("1d", Child.dir [FileInfo.mk "2020-01-10" true])], none) ∧
    dueCheck isoDate 1578614400000000000 (rotation.mk (frequency.mk "1d" 0 0 1) 7)
        [("1d", Child.dir [FileInfo.mk "2020-01-10" true])] = some false ∧
    dueCheck isoDate 1578614400000000000 (rotation.mk (frequency.mk "1d" 0 0 1) 7) []
      = some true ∧
    rotate isoDate (fun _ => 1578614400000000000)
        [rotation.mk (frequency.mk "1d" 0 0 1) 7, rotation.mk (frequency.mk "1d" 0 0 1) 7]
        "foo" "bar" (FS.mk PathKind.dir PathKind.dir [])
      = (FS.mk PathKind.dir PathKind.dir
          [("1d", Child.dir [FileInfo.mk "2020-01-10" true])], none) ∧
    parseSchedule "1d:7,1d /../1d:7" =
      ([rotation.mk (frequency.mk "1d" 0 0 1) 7,
        rotation.mk (frequency.mk "1d /../1d" 0 0 1) 7], none) ∧
    dueCheck isoDate 1578614400000000000 (rotation.mk (frequency.mk "1d /../1d" 0 0 1) 7)
        [("1d", Child.dir [FileInfo.mk "2020-01-10" true])] = some false ∧
    dueCheck isoDate 1578614400000000000 (rotation.mk (frequency.mk "1d /../1d" 0 0 1) 7) []
      = some true := by
  refine ⟨by decide, by decide, by decide, by decide, by decide, by decide, by decide,
    by decide⟩

/-- C15, amended: take a schedule and a rule of it whose bucket directory,
`filepath.Join(target, label)`, is a child of the target, and suppose that no rule before it has
that bucket directory and that `rotate` processes the rules before it without error. Then the
rule is processed next, on the target those rules left, and its due-check there is the due-check
it has on the initial target at the same current time. -/
theorem due_check_independent (fmt : DateFormat) (clock : Nat → Time) (source : PathKind)
    (pre post : List rotation) (r : rotation) (children children1 : List (String × Child))
    (L : String)
    (hr : joinPath r.frequency.label = some [L])
    (hlabels : ∀ q ∈ pre, joinPath q.frequency.label ≠ some [L])
    (hpre : rotateLoop fmt clock source 0 pre children = (children1, none)) :
    rotateLoop fmt clock source 0 (pre ++ r :: post) children =
      rotateLoop fmt clock source pre.length (r :: post) children1 ∧
    dueCheck fmt (clock pre.length) r children1 = dueCheck fmt (clock pre.length) r children := by
  constructor
  · have h := rotateLoop_append fmt clock source pre (r :: post) 0 children children1 hpre
    rw [Nat.zero_add] at h
    exact h
  · apply dueCheck_congr fmt (clock pre.length) r children1 children L hr
    have h := rotateLoop_lookup fmt clock source L pre hlabels 0 children
    rw [hpre] at h
    exact h

/-- C15, amended, at a concrete input: the schedule `1d:7,1w:4` on a target whose bucket `1w`
holds the snapshot of 9 January, the clock at 2020-01-10: the rule `1w:4` is not due, after the
rule `1d:7` as on the initial target. -/
theorem due_check_independent_witness :
    (joinPath (rotation.mk (frequency.mk "1w" 0 0 7) 4).frequency.label = some ["1w"] ∧
      joinPath (rotation.mk (frequency.mk "1d" 0 0 1) 7).frequency.label ≠ some ["1w"] ∧
      rotateLoop isoDate (fun _ => 1578614400000000000) PathKind.dir 0
          [rotation.mk (frequency.mk "1d" 0 0 1) 7]
          [("1w", Child.dir [FileInfo.mk "2020-01-09" true])]
        = ([("1w", Child.dir [FileInfo.mk "2020-01-09" true]),
            ("1d", Child.dir [FileInfo.mk "2020-01-10" true])], none)) ∧
    dueCheck isoDate 1578614400000000000 (rotation.mk (frequency.mk "1w" 0 0 7) 4)
        [("1w", Child.dir [FileInfo.mk "2020-01-09" true])] = some false ∧
    dueCheck isoDate 1578614400000000000 (rotation.mk (frequency.mk "1w" 0 0 7) 4)
        [("1w", Child.dir [FileInfo.mk "2020-01-09" true]),
          ("1d", Child.dir [FileInfo.mk "2020-01-10" true])]
      = dueCheck isoDate 1578614400000000000 (rotation.mk (frequency.mk "1w" 0 0 7) 4)
        [("1w", Child.dir [FileInfo.mk "2020-01-09" true])] :=
  ⟨⟨by decide, by decide, by decide⟩, by decide,
    (due_check_independent isoDate (fun _ => 1578614400000000000) PathKind.dir
      [rotation.mk (frequency.mk "1d" 0 0 1) 7] [] (rotation.mk (frequency.mk "1w" 0 0 7) 4)
      [("1w", Child.dir [FileInfo.mk "2020-01-09" true])]
      [("1w", Child.dir [FileInfo.mk "2020-01-09" true]),
        ("1d", Child.dir [FileInfo.mk "2020-01-10" true])] "1w"
      (by decide) (by decide) (by decide)).2⟩

end Rotate
